import Mathlib

/-!
A shallow embedding of the central free-list layer of a slab-style memory
allocator (`src/pkg/runtime/mcentral.c`).

Embedding conventions:
* Object addresses and page numbers are `Nat`; the C `int32` free counter is
  modelled as `Int` (no reachable state comes near 32-bit overflow, so the
  wrap-around is irrelevant to every claim below).
* A span (`MSpan`) carries its start page, page count, intrusive free list
  (modelled as the list of free object addresses, head first), live-object
  count `ref`, and carve limit.
* The two intrusive span lists of an `MCentral` are modelled as lists of span
  keys; the spans themselves live in an association list keyed by start page.
  `MSpanList_Insert` inserts at the front, `MSpanList_Remove` erases the key.
* The page heap collaborator (`MHeap_Alloc`, `MHeap_Free`, `MHeap_Lookup`) is
  modelled by an explicit `MHeap` state: a supply of fresh start pages
  (empty supply = exhaustion), the list of spans returned by `MHeap_Free`,
  and the list of addresses at which the "needs zeroing" sentinel word was
  stored.  `MHeap_Lookup` is modelled as the reverse address lookup over the
  spans owned by the pool (the only spans of this size class in the model).
* `runtime·throw("invalid free")` is modelled by `Option`: `none` is the
  fatal path.
* Locking (`runtime·lock`/`unlock`) disappears in this sequential model;
  "observable outside a locked critical section" becomes "between top-level
  operations".
-/

set_option maxHeartbeats 1000000
set_option maxRecDepth 100000

namespace CentralFreeList

/-- The external size-class geometry: the `class_to_size` and
`class_to_allocnpages` tables and the page size `2 ^ pageShift`
(`PageShift` lives in `malloc.h`, outside the excerpted sources). -/
structure Geometry where
  pageShift : Nat
  class_to_size : Nat → Nat
  class_to_allocnpages : Nat → Nat

/-- `runtime·MGetSizeClassInfo`: returns `(size, npages, nobj)` with
`nobj = (npages << PageShift) / size`, reading only the geometry tables. -/
def MGetSizeClassInfo (g : Geometry) (sizeclass : Nat) : Nat × Nat × Nat :=
  let npages := g.class_to_allocnpages sizeclass
  let size := g.class_to_size sizeclass
  (size, npages, (npages <<< g.pageShift) / size)

/-- An `MSpan`: a run of `npages` pages starting at page `start`, carved into
objects of one size class.  `freelist` lists the free object addresses (head
first), `ref` counts live (allocated) objects. -/
structure MSpan where
  start : Nat
  npages : Nat
  freelist : List Nat
  ref : Nat
  limit : Nat
deriving DecidableEq, Repr

/-- An `MCentral`: the two span lists (as lists of span keys, front = list
head), the owned spans keyed by start page, and the free-object counter. -/
structure MCentral where
  sizeclass : Nat
  nonempty : List Nat
  empty : List Nat
  spans : List (Nat × MSpan)
  nfree : Int
deriving DecidableEq, Repr

/-- The page-heap collaborator's state: `supply` holds the start pages of the
spans `MHeap_Alloc` will grant (in order; empty = exhausted), `freed` the
spans given back via `MHeap_Free`, `sentinels` the addresses where the
needs-zeroing sentinel word was stored. -/
structure MHeap where
  supply : List Nat
  freed : List MSpan
  sentinels : List Nat
deriving DecidableEq, Repr

/-- `runtime·MCentral_Init`: empty span lists; the enclosing runtime hands the
struct over zeroed, so the counter starts at 0. -/
def MCentral_Init (sizeclass : Nat) : MCentral :=
  { sizeclass := sizeclass, nonempty := [], empty := [], spans := [], nfree := 0 }

/-- Whether address `v` lies inside span `s`'s page range. -/
def spanContains (g : Geometry) (s : MSpan) (v : Nat) : Prop :=
  s.start <<< g.pageShift ≤ v ∧ v < (s.start + s.npages) <<< g.pageShift

instance (g : Geometry) (s : MSpan) (v : Nat) : Decidable (spanContains g s v) :=
  inferInstanceAs (Decidable (_ ∧ _))

/-- `runtime·MHeap_Lookup`, restricted to the spans owned by the pool:
the reverse mapping from an address to the span containing it. -/
def lookupSpan (g : Geometry) (c : MCentral) (v : Nat) : Option (Nat × MSpan) :=
  c.spans.find? (fun p => decide (spanContains g p.2 v))

/-- Fetch the first entry of an owned-spans association list with key `id`. -/
def lookupId : List (Nat × MSpan) → Nat → Option MSpan
  | [], _ => none
  | p :: l, id => if p.1 = id then some p.2 else lookupId l id

/-- Fetch the span stored under key `id`. -/
def getSpan (c : MCentral) (id : Nat) : Option MSpan :=
  lookupId c.spans id

/-- Store span `s` under key `id` (in-place update of the owned span). -/
def setSpan (c : MCentral) (id : Nat) (s : MSpan) : MCentral :=
  { c with spans := c.spans.map (fun p => if p.1 = id then (id, s) else p) }

/-- `MCentral_Alloc` (static helper): pop one object off the head span of the
`nonempty` list, bump its `ref`, and move the span to the `empty` list the
moment its free list becomes empty.  Returns `none` when `nonempty` is empty
(the C code would additionally fault if the head span's free list were empty,
which cannot happen under the pool invariant; the model returns `none`
there). -/
def MCentral_Alloc (c : MCentral) : Option Nat × MCentral :=
  match c.nonempty with
  | [] => (none, c)
  | id :: rest =>
    match getSpan c id with
    | none => (none, c)
    | some s =>
      match s.freelist with
      | [] => (none, c)
      | v :: fl =>
        let c1 := setSpan c id { s with ref := s.ref + 1, freelist := fl }
        if fl.isEmpty then
          (some v, { c1 with nonempty := rest, empty := id :: c1.empty })
        else
          (some v, c1)

/-- `MCentral_Grow` (static helper): ask `MHeap_Alloc` for a fresh span
(`none` = exhaustion, reported, not retried), carve it into
`nobj` blocks threaded head-first, set the limit, add `nobj` to the counter
and insert the span at the front of the `nonempty` list. -/
def MCentral_Grow (g : Geometry) (c : MCentral) (h : MHeap) : Bool × MCentral × MHeap :=
  let info := MGetSizeClassInfo g c.sizeclass
  let size := info.1
  let npages := info.2.1
  let n := info.2.2
  match h.supply with
  | [] => (false, c, h)
  | start :: rest =>
    let base := start <<< g.pageShift
    let fl := (List.range n).map (fun i => base + i * size)
    let s : MSpan :=
      { start := start, npages := npages, freelist := fl, ref := 0,
        limit := base + size * n }
    (true,
     { c with nfree := c.nfree + (n : Int),
              nonempty := start :: c.nonempty,
              spans := (start, s) :: c.spans },
     { h with supply := rest })

/-- The copy loop of `runtime·MCentral_AllocList`
(`for(i=1; i<n && (v = MCentral_Alloc(c)) != nil; i++)`): allocate up to `k`
further objects, threading them in removal order, stopping early when the
pool runs dry. -/
def allocMany : MCentral → Nat → List Nat × MCentral
  | c, 0 => ([], c)
  | c, Nat.succ k =>
    match MCentral_Alloc c with
    | (none, c1) => ([], c1)
    | (some v, c1) =>
      let r := allocMany c1 k
      (v :: r.1, r.2)

/-- `runtime·MCentral_AllocList`: grow if the `nonempty` list is empty
(returning the out-of-memory signal `([], 0)` untouched if growing fails),
then allocate the first object (guaranteed after a grow) and up to `n - 1`
more, and finally subtract the granted count from `nfree`. -/
def MCentral_AllocList (g : Geometry) (c : MCentral) (h : MHeap) (n : Nat) :
    List Nat × Nat × MCentral × MHeap :=
  let gr := if c.nonempty.isEmpty then MCentral_Grow g c h else (true, c, h)
  match gr with
  | (false, c1, h1) => ([], 0, c1, h1)
  | (true, c1, h1) =>
    match MCentral_Alloc c1 with
    | (none, c2) => ([], 0, c2, h1)
    | (some first, c2) =>
      let r := allocMany c2 (n - 1)
      let chain := first :: r.1
      (chain, chain.length,
       { r.2 with nfree := r.2.nfree - (chain.length : Int) }, h1)

/-- `MCentral_Free` (static helper): look the object's span up via the heap's
reverse mapping; `runtime·throw("invalid free")` (modelled as `none`) when no
span is found or its live count is already zero.  Otherwise move the span to
`nonempty` if its free list was empty, push the object, bump the counter,
and when the live count hits zero remove the span from its list, store the
needs-zeroing sentinel in its first word, clear its free-list head, subtract
the span's full object count `(npages << PageShift) / size` from the counter
and give the pages back to `MHeap_Free`. -/
def MCentral_Free (g : Geometry) (c : MCentral) (h : MHeap) (v : Nat) :
    Option (MCentral × MHeap) :=
  match lookupSpan g c v with
  | none => none
  | some (id, s) =>
    if s.ref = 0 then none
    else
      let c1 := if s.freelist.isEmpty then
          { c with empty := c.empty.erase id, nonempty := id :: c.nonempty }
        else c
      let s1 : MSpan := { s with freelist := v :: s.freelist }
      let c2 := { setSpan c1 id s1 with nfree := c1.nfree + 1 }
      let s2 : MSpan := { s1 with ref := s1.ref - 1 }
      if s2.ref = 0 then
        let size := g.class_to_size c.sizeclass
        let total := (s.npages <<< g.pageShift) / size
        some ({ c2 with nonempty := c2.nonempty.erase id,
                        empty := c2.empty.erase id,
                        spans := c2.spans.filter (fun p => p.1 ≠ id),
                        nfree := c2.nfree - (total : Int) },
              { h with freed := { s2 with freelist := [] } :: h.freed,
                       sentinels := (s.start <<< g.pageShift) :: h.sentinels })
      else
        some (setSpan c2 id s2, h)

/-- The loop of `runtime·MCentral_FreeList`: free each chain object in order
via `MCentral_Free`, aborting fatally (`none`) where the helper does. -/
def freeAll (g : Geometry) : List Nat → MCentral → MHeap → Option (MCentral × MHeap)
  | [], c, h => some (c, h)
  | v :: vs, c, h =>
    match MCentral_Free g c h v with
    | none => none
    | some (c1, h1) => freeAll g vs c1 h1

/-- `runtime·MCentral_FreeList`: the count parameter is unused (`USED(n)`);
the batch is delimited solely by the chain's terminating link. -/
def MCentral_FreeList (g : Geometry) (c : MCentral) (h : MHeap) (n : Nat)
    (start : List Nat) : Option (MCentral × MHeap) :=
  freeAll g start c h

/-- The span's total object count, `(s->npages << PageShift) / size`. -/
def spanTotal (g : Geometry) (sizeclass : Nat) (s : MSpan) : Nat :=
  (s.npages <<< g.pageShift) / g.class_to_size sizeclass

/-- Sum of free-list lengths across all owned spans. -/
def spanFreeSum (c : MCentral) : Int :=
  (c.spans.map (fun p => (p.2.freelist.length : Int))).sum

/-- Sanity of a size class's geometry: positive object size and at least one
object per span. -/
def GeomOK (g : Geometry) (sizeclass : Nat) : Prop :=
  0 < g.class_to_size sizeclass ∧ 0 < (MGetSizeClassInfo g sizeclass).2.2

/-- Two spans of `np` pages starting at pages `a` and `b` do not overlap. -/
def pagesDisjoint (np : Nat) (a b : Nat) : Prop :=
  a + np ≤ b ∨ b + np ≤ a

/-- The list-membership invariant: an owned span is in the `nonempty` list iff
its free list is non-empty, and in the `empty` list iff its free list is
empty and its live-object count is positive. -/
def ListInv (c : MCentral) : Prop :=
  ∀ id s, getSpan c id = some s →
    ((id ∈ c.nonempty ↔ s.freelist ≠ []) ∧
     (id ∈ c.empty ↔ (s.freelist = [] ∧ 0 < s.ref)))

/-- The counter-accuracy invariant: `nfree` equals the sum of free-list
lengths across all owned spans. -/
def Counter (c : MCentral) : Prop :=
  c.nfree = spanFreeSum c

instance (g : Geometry) (sizeclass : Nat) : Decidable (GeomOK g sizeclass) :=
  inferInstanceAs (Decidable (_ ∧ _))

instance (np a b : Nat) : Decidable (pagesDisjoint np a b) :=
  inferInstanceAs (Decidable (_ ∨ _))

instance (c : MCentral) : Decidable (Counter c) :=
  inferInstanceAs (Decidable (_ = _))

/-- The structural pool invariant (everything except counter accuracy, which
is temporarily stale inside `MCentral_AllocList` between the copy loop and
the final `c->nfree -= i`). -/
structure WFa (g : Geometry) (c : MCentral) (h : MHeap) : Prop where
  geom : GeomOK g c.sizeclass
  keys_nodup : (c.spans.map Prod.fst).Nodup
  lists_nodup : (c.nonempty ++ c.empty).Nodup
  mem_iff : ∀ id, id ∈ c.nonempty ++ c.empty ↔ id ∈ c.spans.map Prod.fst
  nonempty_fl : ∀ id s, id ∈ c.nonempty → getSpan c id = some s → s.freelist ≠ []
  empty_fl : ∀ id s, id ∈ c.empty → getSpan c id = some s →
    s.freelist = [] ∧ 0 < s.ref
  span_start : ∀ p ∈ c.spans, Prod.fst p = (Prod.snd p).start
  span_np : ∀ p ∈ c.spans, (Prod.snd p).npages = g.class_to_allocnpages c.sizeclass
  span_geom : ∀ p ∈ c.spans,
    (Prod.snd p).freelist.length + (Prod.snd p).ref = spanTotal g c.sizeclass (Prod.snd p)
  fl_range : ∀ p ∈ c.spans, ∀ v ∈ (Prod.snd p).freelist, spanContains g (Prod.snd p) v
  spans_disj : c.spans.Pairwise (fun p q =>
    pagesDisjoint (g.class_to_allocnpages c.sizeclass) (Prod.snd p).start (Prod.snd q).start)
  supply_disj : h.supply.Pairwise (pagesDisjoint (g.class_to_allocnpages c.sizeclass))
  supply_owned : ∀ p ∈ c.spans, ∀ q ∈ h.supply,
    pagesDisjoint (g.class_to_allocnpages c.sizeclass) (Prod.snd p).start q

/-- The full pool invariant. -/
def WF (g : Geometry) (c : MCentral) (h : MHeap) : Prop :=
  WFa g c h ∧ Counter c

/-- Pool states reachable from an initialized pool (with sane geometry and a
non-overlapping heap supply) by any sequence of `MCentral_AllocList`,
`MCentral_FreeList` and `MCentral_Grow` operations. -/
inductive Reachable (g : Geometry) : MCentral → MHeap → Prop where
  | init : ∀ sizeclass h0, GeomOK g sizeclass →
      h0.supply.Pairwise (pagesDisjoint (g.class_to_allocnpages sizeclass)) →
      Reachable g (MCentral_Init sizeclass) h0
  | allocList : ∀ c h n, Reachable g c h →
      Reachable g (MCentral_AllocList g c h n).2.2.1 (MCentral_AllocList g c h n).2.2.2
  | freeList : ∀ c h n chain c1 h1, Reachable g c h →
      MCentral_FreeList g c h n chain = some (c1, h1) → Reachable g c1 h1
  | grow : ∀ c h, Reachable g c h →
      Reachable g (MCentral_Grow g c h).2.1 (MCentral_Grow g c h).2.2

/-- An executable restatement of the pool invariant with all quantifiers
bounded, so that concrete states can be checked by `decide`. -/
def WFb (g : Geometry) (c : MCentral) (h : MHeap) : Prop :=
  GeomOK g c.sizeclass ∧
  (c.spans.map Prod.fst).Nodup ∧
  (c.nonempty ++ c.empty).Nodup ∧
  (∀ id ∈ c.nonempty ++ c.empty, id ∈ c.spans.map Prod.fst) ∧
  (∀ id ∈ c.spans.map Prod.fst, id ∈ c.nonempty ++ c.empty) ∧
  (∀ id ∈ c.nonempty, ∀ s ∈ (getSpan c id).toList, s.freelist ≠ []) ∧
  (∀ id ∈ c.empty, ∀ s ∈ (getSpan c id).toList, s.freelist = [] ∧ 0 < s.ref) ∧
  (∀ p ∈ c.spans, Prod.fst p = (Prod.snd p).start) ∧
  (∀ p ∈ c.spans, (Prod.snd p).npages = g.class_to_allocnpages c.sizeclass) ∧
  (∀ p ∈ c.spans,
    (Prod.snd p).freelist.length + (Prod.snd p).ref = spanTotal g c.sizeclass (Prod.snd p)) ∧
  (∀ p ∈ c.spans, ∀ v ∈ (Prod.snd p).freelist, spanContains g (Prod.snd p) v) ∧
  c.spans.Pairwise (fun p q =>
    pagesDisjoint (g.class_to_allocnpages c.sizeclass) (Prod.snd p).start (Prod.snd q).start) ∧
  h.supply.Pairwise (pagesDisjoint (g.class_to_allocnpages c.sizeclass)) ∧
  (∀ p ∈ c.spans, ∀ q ∈ h.supply,
    pagesDisjoint (g.class_to_allocnpages c.sizeclass) (Prod.snd p).start q) ∧
  Counter c

instance (g : Geometry) (c : MCentral) (h : MHeap) : Decidable (WFb g c h) :=
  inferInstanceAs (Decidable (_ ∧ _))

/-- The per-span bookkeeping shape: key, start page, page count, free-list
length and live-object count (everything claim C8 compares, i.e. all span
state up to free-list topology). -/
def spanShape (p : Nat × MSpan) : Nat × Nat × Nat × Nat × Nat :=
  (p.1, p.2.start, p.2.npages, p.2.freelist.length, p.2.ref)

/-- How many of the outstanding objects `out` fall inside span `s`. -/
def cntIn (g : Geometry) (s : MSpan) (out : List Nat) : Nat :=
  (out.filter (fun v => decide (spanContains g s v))).length

/-- The round-trip bookkeeping relation: `c` is `c0` with the objects `out`
allocated out of it.  Each owned span of `c` aligns positionally with a span
of `c0` with the same key, start and page count; its free list is shorter by
the number of `out` objects falling in that span's range and its live count
larger by the same number.  Every outstanding object lies inside a `c0` span
that was on `c0`'s nonempty list. -/
def spanRel (g : Geometry) (out : List Nat) (p q : Nat × MSpan) : Prop :=
  Prod.fst p = Prod.fst q ∧ (Prod.snd p).start = (Prod.snd q).start ∧
  (Prod.snd p).npages = (Prod.snd q).npages ∧
  (Prod.snd p).freelist.length + cntIn g (Prod.snd q) out =
    (Prod.snd q).freelist.length ∧
  (Prod.snd p).ref = (Prod.snd q).ref + cntIn g (Prod.snd q) out

def Delta (g : Geometry) (c0 c : MCentral) (out : List Nat) : Prop :=
  List.Forall₂ (spanRel g out) c.spans c0.spans ∧
  ∀ v ∈ out, ∃ q ∈ c0.spans, spanContains g (Prod.snd q) v ∧
    Prod.fst q ∈ c0.nonempty

/-- Scenario geometry (spec §8, Scenario A/B): objectSize 16, one page per
span, page size 8192, hence 512 objects per span. -/
def gScen : Geometry := ⟨13, fun _ => 16, fun _ => 1⟩

/-- A heap supply of two disjoint one-page spans for the scenario pool. -/
def hScen : MHeap := ⟨[0, 2], [], []⟩

/-- Tiny geometry for hand-checked states: object size 1, one page of size 1
per span, hence exactly one object per span. -/
def gTiny : Geometry := ⟨0, fun _ => 1, fun _ => 1⟩

/-- Tiny geometry with two-page spans: two objects per span. -/
def gTiny2 : Geometry := ⟨0, fun _ => 1, fun _ => 2⟩

/-- A one-span supply for the tiny geometry. -/
def hTiny : MHeap := ⟨[5], [], []⟩

/-- An exhausted heap. -/
def hEmpty : MHeap := ⟨[], [], []⟩

/-- A pool owning one fully-allocated one-object span (live count 1). -/
def cOneLive : MCentral := ⟨0, [], [4], [(4, ⟨4, 1, [], 1, 5⟩)], 0⟩

/-- A pool owning one one-object span with live count 0 (a freshly grown,
never-allocated span): the claim C8 counterexample state. -/
def cZeroRef : MCentral := ⟨0, [7], [], [(7, ⟨7, 1, [7], 0, 8⟩)], 1⟩

/-- A pool owning one two-object span with one object live and one free:
the claim C8 witness state. -/
def cHalf : MCentral := ⟨0, [4], [], [(4, ⟨4, 2, [4], 1, 6⟩)], 1⟩

/-! Association-list infrastructure for the owned-spans map. -/

@[simp] theorem lookupId_nil (id : Nat) : lookupId [] id = none := rfl

@[simp] theorem lookupId_cons (p : Nat × MSpan) (l : List (Nat × MSpan)) (id : Nat) :
    lookupId (p :: l) id = if p.1 = id then some p.2 else lookupId l id := rfl

theorem lookupId_append_left {l1 : List (Nat × MSpan)} (l2 : List (Nat × MSpan))
    {id : Nat} (h : ∀ p ∈ l1, p.1 ≠ id) :
    lookupId (l1 ++ l2) id = lookupId l2 id := by
  induction l1 with
  | nil => simp
  | cons p l ih =>
    have hp : p.1 ≠ id := h p (by simp)
    simp only [List.cons_append, lookupId_cons, if_neg hp]
    exact ih (fun q hq => h q (by simp [hq]))

theorem lookupId_append_mid {l1 l2 : List (Nat × MSpan)} {id : Nat} (s : MSpan)
    (h : ∀ p ∈ l1, p.1 ≠ id) :
    lookupId (l1 ++ (id, s) :: l2) id = some s := by
  rw [lookupId_append_left _ h]; simp

theorem lookupId_append_other {l1 l2 : List (Nat × MSpan)} {id id' : Nat} (s : MSpan)
    (h : id' ≠ id) :
    lookupId (l1 ++ (id, s) :: l2) id' = lookupId (l1 ++ l2) id' := by
  induction l1 with
  | nil => simp [Ne.symm h]
  | cons p l ih => by_cases hp : p.1 = id' <;> simp [hp, ih]

theorem lookupId_isSome {l : List (Nat × MSpan)} {id : Nat} :
    (lookupId l id).isSome ↔ id ∈ l.map Prod.fst := by
  induction l with
  | nil => simp
  | cons p l ih =>
    by_cases hp : p.1 = id
    · simp [hp]
    · simp [hp, ih, Ne.symm hp]

theorem lookupId_mem {l : List (Nat × MSpan)} {id : Nat} {s : MSpan}
    (h : lookupId l id = some s) : (id, s) ∈ l := by
  induction l with
  | nil => simp at h
  | cons p l ih =>
    obtain ⟨a, b⟩ := p
    by_cases hp : a = id
    · simp only [lookupId_cons, if_pos hp] at h
      obtain rfl : b = s := by simpa using h
      subst hp
      exact List.mem_cons_self _ _
    · simp only [lookupId_cons, if_neg hp] at h
      exact List.mem_cons_of_mem _ (ih h)

theorem lookupId_split {l : List (Nat × MSpan)} {id : Nat} {s : MSpan}
    (h : lookupId l id = some s) :
    ∃ l1 l2, l = l1 ++ (id, s) :: l2 ∧ ∀ p ∈ l1, p.1 ≠ id := by
  induction l with
  | nil => simp at h
  | cons p l ih =>
    obtain ⟨a, b⟩ := p
    by_cases hp : a = id
    · refine ⟨[], l, ?_, by simp⟩
      simp only [lookupId_cons, if_pos hp] at h
      obtain rfl : b = s := by simpa using h
      subst hp
      simp
    · simp only [lookupId_cons, if_neg hp] at h
      obtain ⟨l1, l2, hl, h1⟩ := ih h
      exact ⟨(a, b) :: l1, l2, by simp [hl], by
        intro q hq
        rcases List.mem_cons.mp hq with rfl | hq'
        · exact hp
        · exact h1 q hq'⟩

theorem keys_nodup_right {l l1 l2 : List (Nat × MSpan)} {id : Nat} {s : MSpan}
    (hl : l = l1 ++ (id, s) :: l2) (hnd : (l.map Prod.fst).Nodup) :
    ∀ p ∈ l2, p.1 ≠ id := by
  subst hl
  intro p hp
  simp only [List.map_append, List.map_cons, List.nodup_append] at hnd
  have : ¬ (id ∈ (l2.map Prod.fst)) := by
    have h2 := hnd.2.1
    simp only [List.nodup_cons] at h2
    exact h2.1
  intro he
  exact this (he ▸ List.mem_map_of_mem Prod.fst hp)

theorem map_self_of {l : List (Nat × MSpan)} {f : Nat × MSpan → Nat × MSpan}
    (h : ∀ p ∈ l, f p = p) : l.map f = l := by
  conv_rhs => rw [← List.map_id l]
  exact List.map_congr_left h

theorem filter_self_of {l : List (Nat × MSpan)} {f : Nat × MSpan → Bool}
    (h : ∀ p ∈ l, f p = true) : l.filter f = l := by
  induction l with
  | nil => simp
  | cons p l ih =>
    rw [List.filter_cons, if_pos (h p (by simp))]
    rw [ih (fun q hq => h q (by simp [hq]))]

theorem upd_of_decomp {l1 l2 : List (Nat × MSpan)} {id : Nat} {s0 : MSpan} (s : MSpan)
    (h1 : ∀ p ∈ l1, p.1 ≠ id) (h2 : ∀ p ∈ l2, p.1 ≠ id) :
    (l1 ++ (id, s0) :: l2).map (fun p => if p.1 = id then (id, s) else p) =
      l1 ++ (id, s) :: l2 := by
  rw [List.map_append, List.map_cons]
  have e1 : l1.map (fun p => if p.1 = id then (id, s) else p) = l1 :=
    map_self_of (fun p hp => by simp [h1 p hp])
  have e2 : l2.map (fun p => if p.1 = id then (id, s) else p) = l2 :=
    map_self_of (fun p hp => by simp [h2 p hp])
  simp [e1, e2]

theorem upd_keys (l : List (Nat × MSpan)) (id : Nat) (s : MSpan) :
    (l.map (fun p => if p.1 = id then (id, s) else p)).map Prod.fst = l.map Prod.fst := by
  rw [List.map_map]
  apply List.map_congr_left
  intro p _
  by_cases hp : p.1 = id <;> simp [hp]

theorem filter_ne_of_decomp {l1 l2 : List (Nat × MSpan)} {id : Nat} {s0 : MSpan}
    (h1 : ∀ p ∈ l1, p.1 ≠ id) (h2 : ∀ p ∈ l2, p.1 ≠ id) :
    (l1 ++ (id, s0) :: l2).filter (fun p => p.1 ≠ id) = l1 ++ l2 := by
  rw [List.filter_append]
  have e1 : l1.filter (fun p => decide (p.1 ≠ id)) = l1 :=
    filter_self_of (fun p hp => by simpa using h1 p hp)
  have e2 : ((id, s0) :: l2).filter (fun p => decide (p.1 ≠ id)) = l2 := by
    rw [List.filter_cons]
    have e2' : l2.filter (fun p => decide (p.1 ≠ id)) = l2 :=
      filter_self_of (fun p hp => by simpa using h2 p hp)
    rw [if_neg (by simp)]
    exact e2'
  rw [e1, e2]

theorem pairwise_replace {R : Nat × MSpan → Nat × MSpan → Prop}
    {l1 l2 : List (Nat × MSpan)} {p q : Nat × MSpan}
    (hR1 : ∀ x, R p x → R q x) (hR2 : ∀ x, R x p → R x q)
    (h : List.Pairwise R (l1 ++ p :: l2)) : List.Pairwise R (l1 ++ q :: l2) := by
  rw [List.pairwise_append] at h ⊢
  obtain ⟨hp1, hp2, hcross⟩ := h
  rw [List.pairwise_cons] at hp2 ⊢
  refine ⟨hp1, ⟨fun b hb => hR1 b (hp2.1 b hb), hp2.2⟩, ?_⟩
  intro a ha b hb
  rcases List.mem_cons.mp hb with rfl | hb'
  · exact hR2 a (hcross a ha p (by simp))
  · exact hcross a ha b (by simp [hb'])

theorem listFreeSum_decomp (l1 l2 : List (Nat × MSpan)) (id : Nat) (s : MSpan) :
    ((l1 ++ (id, s) :: l2).map (fun p => ((Prod.snd p).freelist.length : Int))).sum =
      (l1.map (fun p => ((Prod.snd p).freelist.length : Int))).sum +
        (s.freelist.length : Int) +
        (l2.map (fun p => ((Prod.snd p).freelist.length : Int))).sum := by
  simp [List.sum_append]
  ring

theorem wfa_split {g : Geometry} {c : MCentral} {h : MHeap} (a : WFa g c h)
    {id : Nat} {s : MSpan} (hs : getSpan c id = some s) :
    ∃ l1 l2, c.spans = l1 ++ (id, s) :: l2 ∧ (∀ p ∈ l1, p.1 ≠ id) ∧
      ∀ p ∈ l2, p.1 ≠ id := by
  obtain ⟨l1, l2, hl, h1⟩ := lookupId_split hs
  exact ⟨l1, l2, hl, h1, keys_nodup_right hl a.keys_nodup⟩

theorem getSpan_of_mem {g : Geometry} {c : MCentral} {h : MHeap} (a : WFa g c h)
    {id : Nat} (hm : id ∈ c.nonempty ++ c.empty) : ∃ s, getSpan c id = some s := by
  have := (a.mem_iff id).mp hm
  have hsome : (lookupId c.spans id).isSome := lookupId_isSome.mpr this
  rcases he : lookupId c.spans id with _ | s
  · rw [he] at hsome
    simp at hsome
  · exact ⟨s, he⟩

/-- Explicit characterization of a successful `MCentral_Alloc` under the
structural invariant. -/
theorem MCentral_Alloc_spec {g : Geometry} {c : MCentral} {h : MHeap} (a : WFa g c h)
    {id : Nat} {rest : List Nat} (hne : c.nonempty = id :: rest) :
    ∃ s v fl l1 l2,
      getSpan c id = some s ∧ s.freelist = v :: fl ∧
      c.spans = l1 ++ (id, s) :: l2 ∧ (∀ p ∈ l1, p.1 ≠ id) ∧ (∀ p ∈ l2, p.1 ≠ id) ∧
      MCentral_Alloc c =
        (some v,
          { sizeclass := c.sizeclass,
            nonempty := if fl.isEmpty then rest else id :: rest,
            empty := if fl.isEmpty then id :: c.empty else c.empty,
            spans := l1 ++ (id, { s with ref := s.ref + 1, freelist := fl }) :: l2,
            nfree := c.nfree }) := by
  obtain ⟨s, hs⟩ := @getSpan_of_mem g c h a id (by rw [hne]; simp)
  obtain ⟨l1, l2, hl, h1, h2⟩ := wfa_split a hs
  rcases hfl : s.freelist with _ | ⟨v, fl⟩
  · exact absurd hfl (a.nonempty_fl id s (by rw [hne]; simp) hs)
  · refine ⟨s, v, fl, l1, l2, hs, hfl, hl, h1, h2, ?_⟩
    have hspans : c.spans.map
        (fun p => if p.1 = id then (id, { s with ref := s.ref + 1, freelist := fl }) else p) =
        l1 ++ (id, { s with ref := s.ref + 1, freelist := fl }) :: l2 := by
      rw [hl]; exact upd_of_decomp _ h1 h2
    simp only [MCentral_Alloc, hne, hs, hfl, setSpan]
    by_cases hfe : fl.isEmpty
    · simp [hfe, Prod.mk.injEq, MCentral.mk.injEq, hspans]
    · simp [hfe, Prod.mk.injEq, MCentral.mk.injEq, hspans]

theorem mem3 {l1 l2 : List (Nat × MSpan)} {p q : Nat × MSpan}
    (h : p ∈ l1 ++ q :: l2) : p ∈ l1 ∨ p = q ∨ p ∈ l2 := by
  rcases List.mem_append.mp h with h' | h'
  · exact Or.inl h'
  · rcases List.mem_cons.mp h' with h'' | h''
    · exact Or.inr (Or.inl h'')
    · exact Or.inr (Or.inr h'')

/-- A successful `MCentral_Alloc` preserves the structural invariant and
removes exactly one object from the owned free lists, without touching
`nfree` (the batch routine adjusts it afterwards). -/
theorem wfa_alloc_succ {g : Geometry} {c : MCentral} {h : MHeap} (a : WFa g c h)
    {id : Nat} {rest : List Nat} (hne : c.nonempty = id :: rest) :
    ∃ v c1, MCentral_Alloc c = (some v, c1) ∧ WFa g c1 h ∧
      spanFreeSum c1 = spanFreeSum c - 1 ∧ c1.nfree = c.nfree ∧
      c1.sizeclass = c.sizeclass := by
  obtain ⟨s, v, fl, l1, l2, hs, hfl, hl, h1, h2, halloc⟩ := MCentral_Alloc_spec a hne
  have hnd := a.lists_nodup
  rw [hne] at hnd
  have hidrest : id ∉ rest := by
    simp only [List.cons_append, List.nodup_cons] at hnd
    exact fun hm => hnd.1 (List.mem_append.mpr (Or.inl hm))
  have hidempty : id ∉ c.empty := by
    simp only [List.cons_append, List.nodup_cons] at hnd
    exact fun hm => hnd.1 (List.mem_append.mpr (Or.inr hm))
  set s1 : MSpan := { s with ref := s.ref + 1, freelist := fl } with hs1
  set c1 : MCentral :=
    { sizeclass := c.sizeclass,
      nonempty := if fl.isEmpty then rest else id :: rest,
      empty := if fl.isEmpty then id :: c.empty else c.empty,
      spans := l1 ++ (id, s1) :: l2,
      nfree := c.nfree } with hc1
  have hkeys : c1.spans.map Prod.fst = c.spans.map Prod.fst := by
    simp [hc1, hl]
  have hget : ∀ id', id' ≠ id → getSpan c1 id' = getSpan c id' := by
    intro id' hid'
    show lookupId (l1 ++ (id, s1) :: l2) id' = getSpan c id'
    rw [lookupId_append_other _ hid', ← lookupId_append_other s hid']
    rw [getSpan, hl]
  have hgetid : getSpan c1 id = some s1 := lookupId_append_mid _ h1
  have hmemspans : (id, s) ∈ c.spans := by rw [hl]; simp
  have hperm : (c.nonempty ++ c.empty).Perm (c1.nonempty ++ c1.empty) := by
    rw [hne, hc1]
    by_cases hfe : fl.isEmpty
    · simp only [hfe, if_true]
      exact (List.perm_middle.symm.trans (by simp)).symm.symm
    · simp [hfe]
  refine ⟨v, c1, halloc, ?_, ?_, rfl, rfl⟩
  · refine ⟨?_, ?_, ?_, ?_, ?_, ?_, ?_, ?_, ?_, ?_, ?_, ?_, ?_⟩
    · exact a.geom
    · rw [hkeys]; exact a.keys_nodup
    · exact hperm.nodup a.lists_nodup
    · intro id'
      rw [hkeys, ← hperm.mem_iff]
      exact a.mem_iff id'
    · -- nonempty_fl
      intro id' s'' hm hgs
      have hne1 : c1.nonempty = if fl.isEmpty then rest else id :: rest := rfl
      rw [hne1] at hm
      by_cases hid' : id' = id
      · subst hid'
        rw [hgetid] at hgs
        obtain rfl : s1 = s'' := by simpa using hgs
        have hfe : ¬ fl.isEmpty := by
          intro hfe
          rw [if_pos hfe] at hm
          exact hidrest hm
        simpa [hs1] using (by simpa using hfe : fl ≠ [])
      · rw [hget id' hid'] at hgs
        have hm' : id' ∈ c.nonempty := by
          rw [hne]
          by_cases hfe : fl.isEmpty
          · rw [if_pos hfe] at hm
            exact List.mem_cons_of_mem _ hm
          · rw [if_neg hfe] at hm
            exact hm
        exact a.nonempty_fl id' s'' hm' hgs
    · -- empty_fl
      intro id' s'' hm hgs
      have hem1 : c1.empty = if fl.isEmpty then id :: c.empty else c.empty := rfl
      rw [hem1] at hm
      by_cases hid' : id' = id
      · subst hid'
        rw [hgetid] at hgs
        obtain rfl : s1 = s'' := by simpa using hgs
        have hfe : fl.isEmpty := by
          by_contra hfe
          rw [if_neg hfe] at hm
          exact hidempty hm
        constructor
        · simpa [hs1] using (by simpa using hfe : fl = [])
        · simp [hs1]
      · rw [hget id' hid'] at hgs
        have hm' : id' ∈ c.empty := by
          by_cases hfe : fl.isEmpty
          · rw [if_pos hfe] at hm
            rcases List.mem_cons.mp hm with rfl | hm'
            · exact absurd rfl hid'
            · exact hm'
          · rw [if_neg hfe] at hm
            exact hm
        exact a.empty_fl id' s'' hm' hgs
    · -- span_start
      intro p hp
      rcases mem3 hp with hp' | rfl | hp'
      · exact a.span_start p (by rw [hl]; simp [hp'])
      · have := a.span_start (id, s) hmemspans
        simpa [hs1] using this
      · exact a.span_start p (by rw [hl]; simp [hp'])
    · -- span_np
      intro p hp
      rcases mem3 hp with hp' | rfl | hp'
      · exact a.span_np p (by rw [hl]; simp [hp'])
      · have := a.span_np (id, s) hmemspans
        simpa [hs1] using this
      · exact a.span_np p (by rw [hl]; simp [hp'])
    · -- span_geom
      intro p hp
      rcases mem3 hp with hp' | rfl | hp'
      · exact a.span_geom p (by rw [hl]; simp [hp'])
      · have hg := a.span_geom (id, s) hmemspans
        simp only [hfl, List.length_cons] at hg
        show fl.length + (s.ref + 1) = spanTotal g c.sizeclass s1
        have : spanTotal g c.sizeclass s1 = spanTotal g c.sizeclass s := rfl
        rw [this, ← hg]
        omega
      · exact a.span_geom p (by rw [hl]; simp [hp'])
    · -- fl_range
      intro p hp w hw
      rcases mem3 hp with hp' | rfl | hp'
      · exact a.fl_range p (by rw [hl]; simp [hp']) w hw
      · have := a.fl_range (id, s) hmemspans w (by simp [hs1, hfl] at hw ⊢; simp [hw])
        simpa [hs1, spanContains] using this
      · exact a.fl_range p (by rw [hl]; simp [hp']) w hw
    · -- spans_disj
      have hpw := a.spans_disj
      rw [hl] at hpw
      show (l1 ++ (id, s1) :: l2).Pairwise (fun p q =>
        pagesDisjoint (g.class_to_allocnpages c.sizeclass) p.2.start q.2.start)
      exact @pairwise_replace
        (fun p q => pagesDisjoint (g.class_to_allocnpages c.sizeclass) p.2.start q.2.start)
        l1 l2 (id, s) (id, s1) (fun x hx => hx) (fun x hx => hx) hpw
    · exact a.supply_disj
    · -- supply_owned
      intro p hp q hq
      rcases mem3 hp with hp' | rfl | hp'
      · exact a.supply_owned p (by rw [hl]; simp [hp']) q hq
      · have := a.supply_owned (id, s) hmemspans q hq
        simpa [hs1] using this
      · exact a.supply_owned p (by rw [hl]; simp [hp']) q hq
  · -- sum decreases by one
    show spanFreeSum c1 = spanFreeSum c - 1
    rw [spanFreeSum, spanFreeSum, hc1, hl]
    simp only []
    rw [listFreeSum_decomp, listFreeSum_decomp]
    simp [hs1, hfl]
    ring

theorem pagesDisjoint_symm {np a b : Nat} (h : pagesDisjoint np a b) :
    pagesDisjoint np b a := Or.symm h

theorem pagesDisjoint_ne {np a b : Nat} (hnp : 0 < np) (h : pagesDisjoint np a b) :
    a ≠ b := by
  rcases h with h | h <;> omega

theorem MCentral_Alloc_none {c : MCentral} (hne : c.nonempty = []) :
    MCentral_Alloc c = (none, c) := by
  simp [MCentral_Alloc, hne]

theorem grow_fail {g : Geometry} {c : MCentral} {h : MHeap} (hsup : h.supply = []) :
    MCentral_Grow g c h = (false, c, h) := by
  simp [MCentral_Grow, hsup]

/-- Explicit characterization of a successful `MCentral_Grow`. -/
theorem grow_spec {g : Geometry} {c : MCentral} {h : MHeap} {start : Nat}
    {rest : List Nat} (hsup : h.supply = start :: rest) :
    MCentral_Grow g c h =
      (true,
       { c with
           nfree := c.nfree + ((MGetSizeClassInfo g c.sizeclass).2.2 : Int),
           nonempty := start :: c.nonempty,
           spans := (start,
             { start := start,
               npages := (MGetSizeClassInfo g c.sizeclass).2.1,
               freelist := (List.range (MGetSizeClassInfo g c.sizeclass).2.2).map
                 (fun i => (start <<< g.pageShift) + i * (MGetSizeClassInfo g c.sizeclass).1),
               ref := 0,
               limit := (start <<< g.pageShift) +
                 (MGetSizeClassInfo g c.sizeclass).1 * (MGetSizeClassInfo g c.sizeclass).2.2 })
             :: c.spans },
       { h with supply := rest }) := by
  simp [MCentral_Grow, hsup]

/-- The number of objects per span is positive, and so are the object size
and page count, under `GeomOK`. -/
theorem geom_pos {g : Geometry} {sc : Nat} (hg : GeomOK g sc) :
    0 < g.class_to_size sc ∧ 0 < g.class_to_allocnpages sc ∧
      0 < (g.class_to_allocnpages sc <<< g.pageShift) / g.class_to_size sc := by
  obtain ⟨hsz, hn⟩ := hg
  refine ⟨hsz, ?_, hn⟩
  by_contra hnp
  have : g.class_to_allocnpages sc = 0 := by omega
  rw [MGetSizeClassInfo] at hn
  simp only [this, Nat.zero_shiftLeft, Nat.zero_div] at hn
  exact absurd hn (by omega)

/-- Core of the `MCentral_Grow` preservation argument, phrased over abstract
carving parameters to keep rewriting manageable. -/
theorem wf_grow_core {g : Geometry} {c : MCentral} {h : MHeap} (a : WFa g c h)
    {start : Nat} {rest : List Nat} (hsup : h.supply = start :: rest)
    {size np n : Nat} {fl : List Nat} {B : MSpan}
    (hsize : size = g.class_to_size c.sizeclass)
    (hnpdef : np = g.class_to_allocnpages c.sizeclass)
    (hndef : n = (np <<< g.pageShift) / size)
    (hfl : fl = (List.range n).map (fun i => (start <<< g.pageShift) + i * size))
    (hB : B = { start := start, npages := np, freelist := fl, ref := 0,
                limit := (start <<< g.pageShift) + size * n }) :
    WFa g { c with nfree := c.nfree + (n : Int), nonempty := start :: c.nonempty,
                   spans := (start, B) :: c.spans }
        { h with supply := rest } ∧
    (Counter c → Counter { c with nfree := c.nfree + (n : Int),
                                  nonempty := start :: c.nonempty,
                                  spans := (start, B) :: c.spans }) := by
  have hsz : 0 < size := by rw [hsize]; exact (geom_pos a.geom).1
  have hnp : 0 < np := by rw [hnpdef]; exact (geom_pos a.geom).2.1
  have hn : 0 < n := by
    rw [hndef, hnpdef, hsize]
    exact (geom_pos a.geom).2.2
  have hflen : fl.length = n := by simp [hfl]
  have hflne : fl ≠ [] := by
    rw [hfl]
    simp only [ne_eq, List.map_eq_nil_iff, List.range_eq_nil]
    omega
  have hstartdisj : ∀ p ∈ c.spans, pagesDisjoint np p.2.start start := by
    intro p hp
    rw [hnpdef]
    exact a.supply_owned p hp start (by rw [hsup]; simp)
  have hstartkeys : start ∉ c.spans.map Prod.fst := by
    intro hm
    obtain ⟨p, hp, hpe⟩ := List.mem_map.mp hm
    have := pagesDisjoint_ne hnp (hstartdisj p hp)
    rw [a.span_start p hp] at hpe
    exact this hpe
  have hstartlists : start ∉ c.nonempty ++ c.empty := by
    intro hm
    exact hstartkeys ((a.mem_iff start).mp hm)
  constructor
  · refine ⟨?_, ?_, ?_, ?_, ?_, ?_, ?_, ?_, ?_, ?_, ?_, ?_, ?_⟩
    · exact a.geom
    · show ((start, B) :: c.spans).map Prod.fst |>.Nodup
      simp only [List.map_cons, List.nodup_cons]
      exact ⟨hstartkeys, a.keys_nodup⟩
    · show ((start :: c.nonempty) ++ c.empty).Nodup
      simp only [List.cons_append, List.nodup_cons]
      exact ⟨hstartlists, a.lists_nodup⟩
    · intro id
      show id ∈ (start :: c.nonempty) ++ c.empty ↔
        id ∈ ((start, B) :: c.spans).map Prod.fst
      by_cases hid : id = start
      · subst hid; simp
      · simpa [hid] using a.mem_iff id
    · intro id s hm hgs
      have hm' : id ∈ start :: c.nonempty := hm
      have hgs' : lookupId ((start, B) :: c.spans) id = some s := hgs
      by_cases hid : id = start
      · subst hid
        rw [lookupId_cons, if_pos rfl] at hgs'
        obtain rfl : B = s := by simpa using hgs'
        rw [hB]
        simpa using hflne
      · rw [lookupId_cons, if_neg (Ne.symm hid)] at hgs'
        have hm'' : id ∈ c.nonempty := by
          rcases List.mem_cons.mp hm' with h' | h'
          · exact absurd h' hid
          · exact h'
        exact a.nonempty_fl id s hm'' hgs'
    · intro id s hm hgs
      have hm' : id ∈ c.empty := hm
      have hgs' : lookupId ((start, B) :: c.spans) id = some s := hgs
      have hid : id ≠ start := by
        intro he
        subst he
        exact hstartlists (List.mem_append.mpr (Or.inr hm'))
      rw [lookupId_cons, if_neg (Ne.symm hid)] at hgs'
      exact a.empty_fl id s hm' hgs'
    · intro p hp
      rcases List.mem_cons.mp hp with rfl | hp'
      · rw [hB]
      · exact a.span_start p hp'
    · intro p hp
      rcases List.mem_cons.mp hp with rfl | hp'
      · show B.npages = g.class_to_allocnpages c.sizeclass
        rw [hB, ← hnpdef]
      · exact a.span_np p hp'
    · intro p hp
      rcases List.mem_cons.mp hp with rfl | hp'
      · show B.freelist.length + B.ref = spanTotal g c.sizeclass B
        rw [hB]
        show fl.length + 0 = (np <<< g.pageShift) / g.class_to_size c.sizeclass
        rw [hflen, ← hsize, ← hndef]
        omega
      · exact a.span_geom p hp'
    · intro p hp w hw
      rcases List.mem_cons.mp hp with rfl | hp'
      · have hw' : w ∈ fl := by
          have : B.freelist = fl := by rw [hB]
          rwa [this] at hw
        obtain ⟨i, hi, rfl⟩ : ∃ i, i < n ∧ (start <<< g.pageShift) + i * size = w := by
          rw [hfl] at hw'
          obtain ⟨i, hi, he⟩ := List.mem_map.mp hw'
          exact ⟨i, List.mem_range.mp hi, he⟩
        have hst : B.start = start := by rw [hB]
        have hnpg : B.npages = np := by rw [hB]
        constructor
        · rw [hst]
          exact Nat.le_add_right _ _
        · rw [hst, hnpg]
          have h1 : i * size < n * size := mul_lt_mul_of_pos_right hi hsz
          have h2 : n * size ≤ np <<< g.pageShift := by
            rw [hndef]
            exact Nat.div_mul_le_self _ _
          have h3 : (start + np) <<< g.pageShift =
              (start <<< g.pageShift) + np <<< g.pageShift := by
            simp [Nat.shiftLeft_eq, Nat.add_mul]
          rw [h3]
          omega
      · exact a.fl_range p hp' w hw
    · show ((start, B) :: c.spans).Pairwise (fun p q =>
        pagesDisjoint (g.class_to_allocnpages c.sizeclass) p.2.start q.2.start)
      refine List.pairwise_cons.mpr ⟨?_, a.spans_disj⟩
      intro p hp
      show pagesDisjoint (g.class_to_allocnpages c.sizeclass) B.start p.2.start
      have hst : B.start = start := by rw [hB]
      rw [hst, ← hnpdef]
      exact pagesDisjoint_symm (hstartdisj p hp)
    · show rest.Pairwise (pagesDisjoint (g.class_to_allocnpages c.sizeclass))
      have := a.supply_disj
      rw [hsup] at this
      exact (List.pairwise_cons.mp this).2
    · intro p hp q hq
      have hq' : q ∈ rest := hq
      have hsd := a.supply_disj
      rw [hsup] at hsd
      rcases List.mem_cons.mp hp with rfl | hp'
      · show pagesDisjoint (g.class_to_allocnpages c.sizeclass) B.start q
        have hst : B.start = start := by rw [hB]
        rw [hst, ← hnpdef]
        rw [← hnpdef] at hsd
        exact (List.pairwise_cons.mp hsd).1 q hq'
      · exact a.supply_owned p hp' q (by rw [hsup]; simp [hq'])
  · intro hc
    show c.nfree + (n : Int) = spanFreeSum { c with
      nfree := c.nfree + (n : Int), nonempty := start :: c.nonempty,
      spans := (start, B) :: c.spans }
    rw [spanFreeSum]
    show c.nfree + (n : Int) =
      (((start, B) :: c.spans).map (fun p => ((Prod.snd p).freelist.length : Int))).sum
    simp only [List.map_cons, List.sum_cons]
    rw [Counter, spanFreeSum] at hc
    rw [← hc]
    have : (B.freelist.length : Int) = (n : Int) := by
      rw [hB]
      show ((fl.length : Nat) : Int) = (n : Int)
      rw [hflen]
    rw [this]
    ring

/-- `MCentral_Grow` preserves the pool invariant and the size class. -/
theorem wf_grow {g : Geometry} {c : MCentral} {h : MHeap} (a : WFa g c h) :
    WFa g (MCentral_Grow g c h).2.1 (MCentral_Grow g c h).2.2 ∧
      (Counter c → Counter (MCentral_Grow g c h).2.1) ∧
      (MCentral_Grow g c h).2.1.sizeclass = c.sizeclass := by
  rcases hsup : h.supply with _ | ⟨start, rest⟩
  · rw [grow_fail hsup]
    exact ⟨a, fun hc => hc, rfl⟩
  · rw [grow_spec hsup]
    obtain ⟨hwfa, hcnt⟩ := wf_grow_core a hsup rfl rfl rfl rfl rfl
    exact ⟨hwfa, hcnt, rfl⟩

/-- The copy loop preserves the structural invariant, never touches `nfree`
or the heap, and removes exactly one free object per chain entry. -/
theorem wfa_allocMany {g : Geometry} {h : MHeap} {k : Nat} {c : MCentral}
    (a : WFa g c h) :
    WFa g (allocMany c k).2 h ∧
      spanFreeSum (allocMany c k).2 =
        spanFreeSum c - ((allocMany c k).1.length : Int) ∧
      (allocMany c k).2.nfree = c.nfree ∧
      (allocMany c k).2.sizeclass = c.sizeclass := by
  induction k generalizing c with
  | zero => exact ⟨a, by simp [allocMany], rfl, rfl⟩
  | succ k ih =>
    rcases hne : c.nonempty with _ | ⟨id, rest⟩
    · have heq : allocMany c (k + 1) = ([], c) := by
        simp [allocMany, MCentral_Alloc_none hne]
      rw [heq]
      exact ⟨a, by simp, rfl, rfl⟩
    · obtain ⟨v, c1, halloc, a1, hsum, hnfree, hsc⟩ := wfa_alloc_succ a hne
      have heq : allocMany c (k + 1) = (v :: (allocMany c1 k).1, (allocMany c1 k).2) := by
        simp [allocMany, halloc]
      obtain ⟨a2, hsum2, hnf2, hsc2⟩ := ih a1
      rw [heq]
      refine ⟨a2, ?_, ?_, ?_⟩
      · simp only [List.length_cons]
        rw [hsum2, hsum]
        push_cast
        ring
      · rw [hnf2, hnfree]
      · rw [hsc2, hsc]

theorem allocMany_length_le {c : MCentral} {k : Nat} :
    (allocMany c k).1.length ≤ k := by
  induction k generalizing c with
  | zero => simp [allocMany]
  | succ k ih =>
    rcases halloc : MCentral_Alloc c with ⟨_ | v, c1⟩
    · simp [allocMany, halloc]
    · simp only [allocMany, halloc, List.length_cons]
      exact Nat.succ_le_succ ih

theorem allocList_oom {g : Geometry} {c : MCentral} {h : MHeap} {n : Nat}
    (hne : c.nonempty = []) (hsup : h.supply = []) :
    MCentral_AllocList g c h n = ([], 0, c, h) := by
  rw [MCentral_AllocList]
  have : c.nonempty.isEmpty = true := by simp [hne]
  rw [if_pos this, grow_fail hsup]

/-- Master decomposition of `runtime·MCentral_AllocList` under the structural
invariant: either the out-of-memory path (empty `nonempty` list and exhausted
heap, state untouched), or the grow-if-needed / first-object / copy-loop /
counter-adjust path. -/
theorem allocList_run {g : Geometry} {c : MCentral} {h : MHeap} (n : Nat)
    (a : WFa g c h) :
    (c.nonempty = [] ∧ h.supply = [] ∧ MCentral_AllocList g c h n = ([], 0, c, h)) ∨
    (∃ c1 h1 v c2,
      ((MCentral_Grow g c h = (true, c1, h1) ∧ c.nonempty = []) ∨
        (c1 = c ∧ h1 = h ∧ c.nonempty ≠ [])) ∧
      WFa g c1 h1 ∧ c1.nonempty ≠ [] ∧ c1.sizeclass = c.sizeclass ∧
      MCentral_Alloc c1 = (some v, c2) ∧
      MCentral_AllocList g c h n =
        (v :: (allocMany c2 (n - 1)).1,
         (v :: (allocMany c2 (n - 1)).1).length,
         { (allocMany c2 (n - 1)).2 with
             nfree := (allocMany c2 (n - 1)).2.nfree -
               ((v :: (allocMany c2 (n - 1)).1).length : Int) },
         h1)) := by
  rcases hne : c.nonempty with _ | ⟨id, rest⟩
  · rcases hsup : h.supply with _ | ⟨q, qs⟩
    · exact Or.inl ⟨rfl, rfl, allocList_oom hne hsup⟩
    · right
      have hgrow := @grow_spec g c h q qs hsup
      obtain ⟨ag, _, hscg⟩ := wf_grow a
      rw [hgrow] at ag hscg
      have hgne : (MCentral_Grow g c h).2.1.nonempty = q :: c.nonempty := by
        rw [hgrow]
      rw [hgrow] at hgne
      obtain ⟨v, c2, halloc, _, _, _, _⟩ := wfa_alloc_succ ag hgne
      refine ⟨_, _, v, c2, Or.inl ⟨hgrow, rfl⟩, ag, by rw [hgne]; simp, hscg,
        halloc, ?_⟩
      rw [MCentral_AllocList]
      have hbe : c.nonempty.isEmpty = true := by simp [hne]
      rw [if_pos hbe, hgrow]
      simp only [halloc]
  · right
    obtain ⟨v, c2, halloc, _, _, _, _⟩ := wfa_alloc_succ a hne
    refine ⟨c, h, v, c2,
      Or.inr ⟨rfl, rfl, by first | (rw [hne]; simp) | simp⟩, a,
      by first | (rw [hne]; simp) | simp, rfl, halloc, ?_⟩
    rw [MCentral_AllocList]
    have hbe : ¬ c.nonempty.isEmpty = true := by rw [hne]; simp
    rw [if_neg hbe]
    simp only [halloc]

theorem wfa_set_nfree {g : Geometry} {c : MCentral} {h : MHeap} {x : Int}
    (a : WFa g c h) : WFa g { c with nfree := x } h :=
  ⟨a.geom, a.keys_nodup, a.lists_nodup, a.mem_iff, a.nonempty_fl, a.empty_fl,
   a.span_start, a.span_np, a.span_geom, a.fl_range, a.spans_disj,
   a.supply_disj, a.supply_owned⟩

/-- `runtime·MCentral_AllocList` preserves the full pool invariant. -/
theorem wf_allocList {g : Geometry} {c : MCentral} {h : MHeap} {n : Nat}
    (w : WF g c h) :
    WF g (MCentral_AllocList g c h n).2.2.1 (MCentral_AllocList g c h n).2.2.2 ∧
      (MCentral_AllocList g c h n).2.2.1.sizeclass = c.sizeclass := by
  obtain ⟨a, hcnt⟩ := w
  rcases allocList_run n a with ⟨_, _, heq⟩ | ⟨c1, h1, v, c2, hcase, a1, hne1, hsc1, halloc, heq⟩
  · rw [heq]
    exact ⟨⟨a, hcnt⟩, rfl⟩
  · rw [heq]
    have hcnt1 : Counter c1 := by
      rcases hcase with ⟨hgrow, _⟩ | ⟨rfl, rfl, _⟩
      · have := (wf_grow a).2.1 hcnt
        rw [hgrow] at this
        exact this
      · exact hcnt
    rcases hne' : c1.nonempty with _ | ⟨id, rest⟩
    · exact absurd hne' hne1
    · obtain ⟨v', c2', halloc', a2, hsum2, hnf2, hsc2⟩ := wfa_alloc_succ a1 hne'
      have hpair : (some v, c2) = (some v', c2') := halloc.symm.trans halloc'
      obtain ⟨hv, hc2⟩ := Prod.ext_iff.mp hpair
      obtain rfl : c2 = c2' := hc2
      obtain ⟨a3, hsum3, hnf3, hsc3⟩ := wfa_allocMany a2
      constructor
      · constructor
        · exact wfa_set_nfree a3
        · show (allocMany c2 (n - 1)).2.nfree -
            ((v :: (allocMany c2 (n - 1)).1).length : Int) =
            spanFreeSum { (allocMany c2 (n - 1)).2 with
              nfree := (allocMany c2 (n - 1)).2.nfree -
                ((v :: (allocMany c2 (n - 1)).1).length : Int) }
          have hsfs : spanFreeSum { (allocMany c2 (n - 1)).2 with
              nfree := (allocMany c2 (n - 1)).2.nfree -
                ((v :: (allocMany c2 (n - 1)).1).length : Int) } =
              spanFreeSum (allocMany c2 (n - 1)).2 := rfl
          rw [hsfs, hsum3, hsum2, hnf3, hnf2, ← hcnt1]
          simp only [List.length_cons]
          push_cast
          ring
      · show (allocMany c2 (n - 1)).2.sizeclass = c.sizeclass
        rw [hsc3, hsc2, hsc1]

theorem lookupSpan_some {g : Geometry} {c : MCentral} {v id : Nat} {s : MSpan}
    (h : lookupSpan g c v = some (id, s)) :
    (id, s) ∈ c.spans ∧ spanContains g s v := by
  have hm := List.mem_of_find?_eq_some h
  have hp := List.find?_some h
  exact ⟨hm, of_decide_eq_true hp⟩

theorem lookupId_of_mem_nodup {l : List (Nat × MSpan)}
    (hnd : (l.map Prod.fst).Nodup) {id : Nat} {s : MSpan} (hm : (id, s) ∈ l) :
    lookupId l id = some s := by
  induction l with
  | nil => simp at hm
  | cons p t ih =>
    simp only [List.map_cons, List.nodup_cons] at hnd
    rcases List.mem_cons.mp hm with rfl | hm'
    · simp
    · have hp : p.1 ≠ id := by
        intro he
        exact hnd.1 (he ▸ List.mem_map_of_mem Prod.fst hm')
      simp only [lookupId_cons, if_neg hp]
      exact ih hnd.2 hm'

/-- Explicit characterization of `MCentral_Free` on a found span with a
positive live count: the no-removal result and the return-to-heap result. -/
theorem MCentral_Free_spec {g : Geometry} {c : MCentral} {h : MHeap} {v id : Nat}
    {s : MSpan} (a : WFa g c h) (hl : lookupSpan g c v = some (id, s))
    (href : s.ref ≠ 0) :
    ∃ l1 l2, c.spans = l1 ++ (id, s) :: l2 ∧ spanContains g s v ∧
      (∀ p ∈ l1, p.1 ≠ id) ∧ (∀ p ∈ l2, p.1 ≠ id) ∧
      (s.ref = 1 →
        MCentral_Free g c h v = some
          ({ sizeclass := c.sizeclass,
             nonempty :=
               (if s.freelist.isEmpty then id :: c.nonempty else c.nonempty).erase id,
             empty :=
               (if s.freelist.isEmpty then c.empty.erase id else c.empty).erase id,
             spans := l1 ++ l2,
             nfree := c.nfree + 1 - ((spanTotal g c.sizeclass s : Nat) : Int) },
           { h with
               freed := { s with freelist := [], ref := s.ref - 1 } :: h.freed,
               sentinels := (s.start <<< g.pageShift) :: h.sentinels })) ∧
      (s.ref ≠ 1 →
        MCentral_Free g c h v = some
          ({ sizeclass := c.sizeclass,
             nonempty := if s.freelist.isEmpty then id :: c.nonempty else c.nonempty,
             empty := if s.freelist.isEmpty then c.empty.erase id else c.empty,
             spans := l1 ++ (id, { s with freelist := v :: s.freelist,
                                          ref := s.ref - 1 }) :: l2,
             nfree := c.nfree + 1 },
           h)) := by
  obtain ⟨hm, hcont⟩ := lookupSpan_some hl
  have hgs : getSpan c id = some s := lookupId_of_mem_nodup a.keys_nodup hm
  obtain ⟨l1, l2, hdec, h1, h2⟩ := wfa_split a hgs
  refine ⟨l1, l2, hdec, hcont, h1, h2, ?_, ?_⟩
  · intro hr1
    have hz : ({ s with freelist := v :: s.freelist, ref := s.ref - 1 } : MSpan).ref = 0 := by
      show s.ref - 1 = 0
      omega
    simp only [MCentral_Free, hl, if_neg href, setSpan, hz, if_pos hz]
    have hupd : c.spans.map
        (fun p => if p.1 = id then (id, { s with freelist := v :: s.freelist }) else p) =
        l1 ++ (id, { s with freelist := v :: s.freelist }) :: l2 := by
      rw [hdec]; exact upd_of_decomp _ h1 h2
    have e1 : l1.filter (fun p => !decide (p.1 = id)) = l1 :=
      filter_self_of (fun p hp => by simp [h1 p hp])
    have e2 : l2.filter (fun p => !decide (p.1 = id)) = l2 :=
      filter_self_of (fun p hp => by simp [h2 p hp])
    by_cases hfe : s.freelist.isEmpty
    · simp [hfe, hupd, spanTotal, e1, e2]
    · simp [hfe, hupd, spanTotal, e1, e2]
  · intro hr1
    have hz : ¬ ({ s with freelist := v :: s.freelist, ref := s.ref - 1 } : MSpan).ref = 0 := by
      show ¬ s.ref - 1 = 0
      omega
    simp only [MCentral_Free, hl, if_neg href, setSpan, if_neg hz]
    have hupd1 : c.spans.map
        (fun p => if p.1 = id then (id, { s with freelist := v :: s.freelist }) else p) =
        l1 ++ (id, { s with freelist := v :: s.freelist }) :: l2 := by
      rw [hdec]; exact upd_of_decomp _ h1 h2
    have hupd2 : (l1 ++ (id, { s with freelist := v :: s.freelist }) :: l2).map
        (fun p => if p.1 = id then
          (id, { s with freelist := v :: s.freelist, ref := s.ref - 1 }) else p) =
        l1 ++ (id, { s with freelist := v :: s.freelist, ref := s.ref - 1 }) :: l2 :=
      upd_of_decomp _ h1 h2
    by_cases hfe : s.freelist.isEmpty
    · simp [hfe, hupd1, hupd2]
    · simp [hfe, hupd1, hupd2]

/-- Shared facts about the looked-up span's list membership. -/
theorem free_mem_facts {g : Geometry} {c : MCentral} {h : MHeap} (a : WFa g c h)
    {id : Nat} {s : MSpan} {l1 l2 : List (Nat × MSpan)}
    (hdec : c.spans = l1 ++ (id, s) :: l2) :
    getSpan c id = some s ∧ id ∈ c.spans.map Prod.fst ∧
      (s.freelist = [] → id ∉ c.nonempty ∧ id ∈ c.empty) ∧
      (s.freelist ≠ [] → id ∈ c.nonempty ∧ id ∉ c.empty) := by
  have hm : (id, s) ∈ c.spans := by rw [hdec]; simp
  have hgs : getSpan c id = some s := lookupId_of_mem_nodup a.keys_nodup hm
  have hkid : id ∈ c.spans.map Prod.fst := List.mem_map_of_mem Prod.fst hm
  have hlists : id ∈ c.nonempty ++ c.empty := (a.mem_iff id).mpr hkid
  refine ⟨hgs, hkid, ?_, ?_⟩
  · intro hfl
    have hnon : id ∉ c.nonempty := fun hmem => a.nonempty_fl id s hmem hgs hfl
    exact ⟨hnon, by
      rcases List.mem_append.mp hlists with h' | h'
      · exact absurd h' hnon
      · exact h'⟩
  · intro hfl
    have hemp : id ∉ c.empty := fun hmem => hfl (a.empty_fl id s hmem hgs).1
    exact ⟨by
      rcases List.mem_append.mp hlists with h' | h'
      · exact h'
      · exact absurd h' hemp, hemp⟩

/-- Invariant preservation for the non-removal branch of `MCentral_Free`. -/
theorem wf_free_norem_core {g : Geometry} {c : MCentral} {h : MHeap}
    (a : WFa g c h) (hcnt : Counter c) {id v : Nat} {s : MSpan}
    {l1 l2 : List (Nat × MSpan)} (hdec : c.spans = l1 ++ (id, s) :: l2)
    (h1 : ∀ p ∈ l1, p.1 ≠ id) (h2 : ∀ p ∈ l2, p.1 ≠ id)
    (hcont : spanContains g s v) (href : s.ref ≠ 0) :
    WF g { sizeclass := c.sizeclass,
           nonempty := if s.freelist.isEmpty then id :: c.nonempty else c.nonempty,
           empty := if s.freelist.isEmpty then c.empty.erase id else c.empty,
           spans := l1 ++ (id, { s with freelist := v :: s.freelist,
                                        ref := s.ref - 1 }) :: l2,
           nfree := c.nfree + 1 } h := by
  obtain ⟨hgs, hkid, hfacts0, hfacts1⟩ := free_mem_facts a hdec
  set s2 : MSpan := { s with freelist := v :: s.freelist, ref := s.ref - 1 } with hs2
  have hkeq : (l1 ++ (id, s2) :: l2).map Prod.fst = c.spans.map Prod.fst := by
    rw [hdec]; simp
  have hget2 : ∀ id', id' ≠ id →
      lookupId (l1 ++ (id, s2) :: l2) id' = getSpan c id' := by
    intro id' hid'
    rw [lookupId_append_other _ hid', ← lookupId_append_other s hid']
    rw [getSpan, hdec]
  have hgetid2 : lookupId (l1 ++ (id, s2) :: l2) id = some s2 :=
    lookupId_append_mid _ h1
  have hmem : (id, s) ∈ c.spans := by rw [hdec]; simp
  have hgeo : s.freelist.length + s.ref = spanTotal g c.sizeclass s :=
    a.span_geom (id, s) hmem
  have hsumeq : ((l1 ++ (id, s2) :: l2).map
        fun p => ((Prod.snd p).freelist.length : Int)).sum = spanFreeSum c + 1 := by
    rw [spanFreeSum, hdec]
    show _ =
      ((l1 ++ (id, s) :: l2).map fun p => ((Prod.snd p).freelist.length : Int)).sum + 1
    rw [listFreeSum_decomp, listFreeSum_decomp]
    have : (s2.freelist.length : Int) = (s.freelist.length : Int) + 1 := by
      rw [hs2]
      show ((v :: s.freelist).length : Int) = _
      simp only [List.length_cons]
      push_cast
      ring
    rw [this]
    ring
  constructor
  · refine ⟨a.geom, ?_, ?_, ?_, ?_, ?_, ?_, ?_, ?_, ?_, ?_, a.supply_disj, ?_⟩
    · show ((l1 ++ (id, s2) :: l2).map Prod.fst).Nodup
      rw [hkeq]; exact a.keys_nodup
    · by_cases hfe : s.freelist.isEmpty
      · rw [if_pos hfe, if_pos hfe]
        obtain ⟨hnon, hemp⟩ := hfacts0 (by simpa using hfe)
        have hend : c.empty.Nodup := a.lists_nodup.of_append_right
        show ((id :: c.nonempty) ++ c.empty.erase id).Nodup
        simp only [List.cons_append, List.nodup_cons]
        refine ⟨?_, ?_⟩
        · intro hmem'
          rcases List.mem_append.mp hmem' with h' | h'
          · exact hnon h'
          · exact absurd (hend.mem_erase_iff.mp h').1 (by simp)
        · exact ((List.append_sublist_append_left c.nonempty).mpr
            (List.erase_sublist id c.empty)).nodup a.lists_nodup
      · rw [if_neg hfe, if_neg hfe]
        exact a.lists_nodup
    · intro id'
      show id' ∈ (if s.freelist.isEmpty then id :: c.nonempty else c.nonempty) ++
          (if s.freelist.isEmpty then c.empty.erase id else c.empty) ↔
        id' ∈ (l1 ++ (id, s2) :: l2).map Prod.fst
      rw [hkeq]
      by_cases hfe : s.freelist.isEmpty
      · rw [if_pos hfe, if_pos hfe]
        obtain ⟨hnon, hemp⟩ := hfacts0 (by simpa using hfe)
        have hend : c.empty.Nodup := a.lists_nodup.of_append_right
        by_cases hid' : id' = id
        · subst hid'
          simp only [List.cons_append, List.mem_cons, true_or, true_iff]
          exact (a.mem_iff id').mp (List.mem_append.mpr (Or.inr hemp))
        · simp only [List.cons_append, List.mem_cons, hid', false_or]
          rw [List.mem_append, hend.mem_erase_iff, ← a.mem_iff id', List.mem_append]
          simp [hid']
      · rw [if_neg hfe, if_neg hfe]
        exact a.mem_iff id'
    · intro id' s' hm' hgs'
      have hm'' : id' ∈ if s.freelist.isEmpty then id :: c.nonempty else c.nonempty := hm'
      have hgs'' : lookupId (l1 ++ (id, s2) :: l2) id' = some s' := hgs'
      by_cases hid' : id' = id
      · subst hid'
        rw [hgetid2] at hgs''
        obtain rfl : s2 = s' := by simpa using hgs''
        rw [hs2]
        simp
      · rw [hget2 id' hid'] at hgs''
        refine a.nonempty_fl id' s' ?_ hgs''
        by_cases hfe : s.freelist.isEmpty
        · rw [if_pos hfe] at hm''
          rcases List.mem_cons.mp hm'' with h' | h'
          · exact absurd h' hid'
          · exact h'
        · rw [if_neg hfe] at hm''
          exact hm''
    · intro id' s' hm' hgs'
      have hm'' : id' ∈ if s.freelist.isEmpty then c.empty.erase id else c.empty := hm'
      have hgs'' : lookupId (l1 ++ (id, s2) :: l2) id' = some s' := hgs'
      have hid' : id' ≠ id := by
        intro he
        subst he
        by_cases hfe : s.freelist.isEmpty
        · rw [if_pos hfe] at hm''
          have hend : c.empty.Nodup := a.lists_nodup.of_append_right
          exact absurd (hend.mem_erase_iff.mp hm'').1 (by simp)
        · rw [if_neg hfe] at hm''
          exact (hfacts1 (by simpa using hfe)).2 hm''
      rw [hget2 id' hid'] at hgs''
      refine a.empty_fl id' s' ?_ hgs''
      by_cases hfe : s.freelist.isEmpty
      · rw [if_pos hfe] at hm''
        exact List.mem_of_mem_erase hm''
      · rw [if_neg hfe] at hm''
        exact hm''
    · intro p hp
      rcases mem3 hp with hp' | rfl | hp'
      · exact a.span_start p (by rw [hdec]; simp [hp'])
      · have := a.span_start (id, s) hmem
        simpa [hs2] using this
      · exact a.span_start p (by rw [hdec]; simp [hp'])
    · intro p hp
      rcases mem3 hp with hp' | rfl | hp'
      · exact a.span_np p (by rw [hdec]; simp [hp'])
      · have := a.span_np (id, s) hmem
        simpa [hs2] using this
      · exact a.span_np p (by rw [hdec]; simp [hp'])
    · intro p hp
      rcases mem3 hp with hp' | rfl | hp'
      · exact a.span_geom p (by rw [hdec]; simp [hp'])
      · show s2.freelist.length + s2.ref = spanTotal g c.sizeclass s2
        have hT : spanTotal g c.sizeclass s2 = spanTotal g c.sizeclass s := rfl
        rw [hT]
        have : s2.freelist.length = s.freelist.length + 1 := by rw [hs2]; rfl
        rw [this]
        have : s2.ref = s.ref - 1 := rfl
        rw [this]
        omega
      · exact a.span_geom p (by rw [hdec]; simp [hp'])
    · intro p hp w hw
      rcases mem3 hp with hp' | rfl | hp'
      · exact a.fl_range p (by rw [hdec]; simp [hp']) w hw
      · have hw' : w ∈ v :: s.freelist := by
          have : s2.freelist = v :: s.freelist := rfl
          rwa [this] at hw
        show spanContains g s2 w
        have hsc : spanContains g s2 w ↔ spanContains g s w := Iff.rfl
        rw [hsc]
        rcases List.mem_cons.mp hw' with rfl | hw''
        · exact hcont
        · exact a.fl_range (id, s) hmem w hw''
      · exact a.fl_range p (by rw [hdec]; simp [hp']) w hw
    · have hpw := a.spans_disj
      rw [hdec] at hpw
      show (l1 ++ (id, s2) :: l2).Pairwise (fun p q =>
        pagesDisjoint (g.class_to_allocnpages c.sizeclass) p.2.start q.2.start)
      exact @pairwise_replace
        (fun p q => pagesDisjoint (g.class_to_allocnpages c.sizeclass) p.2.start q.2.start)
        l1 l2 (id, s) (id, s2) (fun x hx => hx) (fun x hx => hx) hpw
    · intro p hp q hq
      rcases mem3 hp with hp' | rfl | hp'
      · exact a.supply_owned p (by rw [hdec]; simp [hp']) q hq
      · have := a.supply_owned (id, s) hmem q hq
        simpa [hs2] using this
      · exact a.supply_owned p (by rw [hdec]; simp [hp']) q hq
  · show c.nfree + 1 = ((l1 ++ (id, s2) :: l2).map
      fun p => ((Prod.snd p).freelist.length : Int)).sum
    rw [hsumeq, ← hcnt]

/-- Invariant preservation for the return-to-heap branch of `MCentral_Free`. -/
theorem wf_free_rem_core {g : Geometry} {c : MCentral} {h : MHeap}
    (a : WFa g c h) (hcnt : Counter c) {id : Nat} {s : MSpan}
    {l1 l2 : List (Nat × MSpan)} (hdec : c.spans = l1 ++ (id, s) :: l2)
    (h1 : ∀ p ∈ l1, p.1 ≠ id) (h2 : ∀ p ∈ l2, p.1 ≠ id) (hr1 : s.ref = 1) :
    WF g { sizeclass := c.sizeclass,
           nonempty :=
             (if s.freelist.isEmpty then id :: c.nonempty else c.nonempty).erase id,
           empty :=
             (if s.freelist.isEmpty then c.empty.erase id else c.empty).erase id,
           spans := l1 ++ l2,
           nfree := c.nfree + 1 - ((spanTotal g c.sizeclass s : Nat) : Int) }
        { h with freed := { s with freelist := [], ref := s.ref - 1 } :: h.freed,
                 sentinels := (s.start <<< g.pageShift) :: h.sentinels } := by
  obtain ⟨hgs, hkid, hfacts0, hfacts1⟩ := free_mem_facts a hdec
  have hmem : (id, s) ∈ c.spans := by rw [hdec]; simp
  have hgeo : s.freelist.length + s.ref = spanTotal g c.sizeclass s :=
    a.span_geom (id, s) hmem
  have hnodne : c.nonempty.Nodup := a.lists_nodup.of_append_left
  have hnodem : c.empty.Nodup := a.lists_nodup.of_append_right
  have hne' : (if s.freelist.isEmpty then id :: c.nonempty else c.nonempty).erase id =
      c.nonempty.erase id := by
    by_cases hfe : s.freelist.isEmpty
    · obtain ⟨hnon, _⟩ := hfacts0 (by simpa using hfe)
      rw [if_pos hfe, List.erase_cons_head, List.erase_of_not_mem hnon]
    · rw [if_neg hfe]
  have hem' : (if s.freelist.isEmpty then c.empty.erase id else c.empty).erase id =
      c.empty.erase id := by
    by_cases hfe : s.freelist.isEmpty
    · rw [if_pos hfe, List.erase_of_not_mem]
      intro hmem'
      exact absurd (hnodem.mem_erase_iff.mp hmem').1 (by simp)
    · rw [if_neg hfe]
  have hkeysold : (l1.map Prod.fst ++ id :: l2.map Prod.fst).Nodup := by
    have := a.keys_nodup
    rw [hdec] at this
    simpa using this
  have hgetrest : ∀ id', id' ≠ id → lookupId (l1 ++ l2) id' = getSpan c id' := by
    intro id' hid'
    rw [← lookupId_append_other s hid', getSpan, hdec]
  have hsub : List.Sublist (l1 ++ l2) (l1 ++ (id, s) :: l2) :=
    (List.append_sublist_append_left _).mpr (List.sublist_cons_self _ _)
  constructor
  · refine ⟨a.geom, ?_, ?_, ?_, ?_, ?_, ?_, ?_, ?_, ?_, ?_, ?_, ?_⟩
    · show ((l1 ++ l2).map Prod.fst).Nodup
      have hkold := a.keys_nodup
      rw [hdec] at hkold
      exact (hsub.map Prod.fst).nodup hkold
    · show ((if s.freelist.isEmpty then id :: c.nonempty else c.nonempty).erase id ++
        (if s.freelist.isEmpty then c.empty.erase id else c.empty).erase id).Nodup
      rw [hne', hem']
      exact ((List.erase_sublist id c.nonempty).append
        (List.erase_sublist id c.empty)).nodup a.lists_nodup
    · intro id'
      show id' ∈ (if s.freelist.isEmpty then id :: c.nonempty else c.nonempty).erase id ++
          (if s.freelist.isEmpty then c.empty.erase id else c.empty).erase id ↔
        id' ∈ (l1 ++ l2).map Prod.fst
      rw [hne', hem']
      by_cases hid' : id' = id
      · subst hid'
        constructor
        · intro hmem'
          rcases List.mem_append.mp hmem' with h' | h'
          · exact absurd (hnodne.mem_erase_iff.mp h').1 (by simp)
          · exact absurd (hnodem.mem_erase_iff.mp h').1 (by simp)
        · intro hmem'
          rw [List.map_append, List.mem_append] at hmem'
          rcases hmem' with h' | h'
          · obtain ⟨p, hp, hpe⟩ := List.mem_map.mp h'
            exact absurd hpe (h1 p hp)
          · obtain ⟨p, hp, hpe⟩ := List.mem_map.mp h'
            exact absurd hpe (h2 p hp)
      · rw [List.mem_append, hnodne.mem_erase_iff, hnodem.mem_erase_iff]
        have hold := a.mem_iff id'
        rw [hdec, List.mem_append] at hold
        simp only [List.map_append, List.map_cons, List.mem_append, List.mem_cons] at hold ⊢
        constructor
        · intro h'
          rcases hold.mp (by tauto) with h'' | h''
          · exact Or.inl h''
          · rcases h'' with h'' | h''
            · exact absurd h'' hid'
            · exact Or.inr h''
        · intro h'
          have := hold.mpr (by tauto)
          tauto
    · intro id' s' hm' hgs'
      have hm'' : id' ∈
          (if s.freelist.isEmpty then id :: c.nonempty else c.nonempty).erase id := hm'
      rw [hne'] at hm''
      obtain ⟨hid', hm3⟩ := hnodne.mem_erase_iff.mp hm''
      have hgs'' : lookupId (l1 ++ l2) id' = some s' := hgs'
      rw [hgetrest id' hid'] at hgs''
      exact a.nonempty_fl id' s' hm3 hgs''
    · intro id' s' hm' hgs'
      have hm'' : id' ∈
          (if s.freelist.isEmpty then c.empty.erase id else c.empty).erase id := hm'
      rw [hem'] at hm''
      obtain ⟨hid', hm3⟩ := hnodem.mem_erase_iff.mp hm''
      have hgs'' : lookupId (l1 ++ l2) id' = some s' := hgs'
      rw [hgetrest id' hid'] at hgs''
      exact a.empty_fl id' s' hm3 hgs''
    · intro p hp
      exact a.span_start p (by rw [hdec]; exact hsub.mem hp)
    · intro p hp
      exact a.span_np p (by rw [hdec]; exact hsub.mem hp)
    · intro p hp
      exact a.span_geom p (by rw [hdec]; exact hsub.mem hp)
    · intro p hp w hw
      exact a.fl_range p (by rw [hdec]; exact hsub.mem hp) w hw
    · have hpw := a.spans_disj
      rw [hdec] at hpw
      exact hpw.sublist hsub
    · exact a.supply_disj
    · intro p hp q hq
      exact a.supply_owned p (by rw [hdec]; exact hsub.mem hp) q hq
  · show c.nfree + 1 - ((spanTotal g c.sizeclass s : Nat) : Int) =
      ((l1 ++ l2).map fun p => ((Prod.snd p).freelist.length : Int)).sum
    have hcnt' : c.nfree =
        (l1.map fun p => ((Prod.snd p).freelist.length : Int)).sum +
          (s.freelist.length : Int) +
          (l2.map fun p => ((Prod.snd p).freelist.length : Int)).sum := by
      rw [Counter, spanFreeSum, hdec] at hcnt
      rw [hcnt]
      exact listFreeSum_decomp l1 l2 id s
    have htot : spanTotal g c.sizeclass s = s.freelist.length + 1 := by omega
    rw [List.map_append, List.sum_append, hcnt', htot]
    push_cast
    ring

/-- `MCentral_Free` preserves the full pool invariant, the size class, and
the heap supply, whenever it does not hit the fatal path. -/
theorem wf_free {g : Geometry} {c : MCentral} {h : MHeap} {v : Nat}
    {c' : MCentral} {h' : MHeap} (w : WF g c h)
    (hf : MCentral_Free g c h v = some (c', h')) :
    WF g c' h' ∧ c'.sizeclass = c.sizeclass ∧ h'.supply = h.supply := by
  obtain ⟨a, hcnt⟩ := w
  rcases hl : lookupSpan g c v with _ | ⟨id, s⟩
  · rw [MCentral_Free, hl] at hf
    exact absurd hf (by simp)
  · by_cases href : s.ref = 0
    · simp only [MCentral_Free, hl, if_pos href] at hf
      exact absurd hf (by simp)
    · obtain ⟨l1, l2, hdec, hcont, h1, h2, hrem, hnorem⟩ :=
        MCentral_Free_spec a hl href
      by_cases hr1 : s.ref = 1
      · rw [hrem hr1] at hf
        obtain ⟨hc', hh'⟩ := Prod.ext_iff.mp (Option.some.inj hf)
        subst hc'
        subst hh'
        exact ⟨wf_free_rem_core a hcnt hdec h1 h2 hr1, rfl, rfl⟩
      · rw [hnorem hr1] at hf
        obtain ⟨hc', hh'⟩ := Prod.ext_iff.mp (Option.some.inj hf)
        subst hc'
        subst hh'
        exact ⟨wf_free_norem_core a hcnt hdec h1 h2 hcont href, rfl, rfl⟩

/-- The `MCentral_FreeList` loop preserves the full pool invariant. -/
theorem wf_freeAll {g : Geometry} :
    ∀ {chain : List Nat} {c : MCentral} {h : MHeap} {c' : MCentral} {h' : MHeap},
      WF g c h → freeAll g chain c h = some (c', h') →
      WF g c' h' ∧ c'.sizeclass = c.sizeclass ∧ h'.supply = h.supply := by
  intro chain
  induction chain with
  | nil =>
    intro c h c' h' w hf
    obtain ⟨hc, hh⟩ := Prod.ext_iff.mp (Option.some.inj hf)
    subst hc; subst hh
    exact ⟨w, rfl, rfl⟩
  | cons v vs ih =>
    intro c h c' h' w hf
    rw [freeAll] at hf
    rcases hone : MCentral_Free g c h v with _ | ⟨c1, h1⟩
    · rw [hone] at hf
      exact absurd hf (by simp)
    · rw [hone] at hf
      obtain ⟨w1, hsc1, hsup1⟩ := wf_free w hone
      obtain ⟨w2, hsc2, hsup2⟩ := ih w1 hf
      exact ⟨w2, hsc2.trans hsc1, hsup2.trans hsup1⟩

/-- The initial pool state satisfies the invariant. -/
theorem wf_init {g : Geometry} {sizeclass : Nat} {h0 : MHeap}
    (hg : GeomOK g sizeclass)
    (hsup : h0.supply.Pairwise (pagesDisjoint (g.class_to_allocnpages sizeclass))) :
    WF g (MCentral_Init sizeclass) h0 := by
  constructor
  · refine ⟨hg, ?_, ?_, ?_, ?_, ?_, ?_, ?_, ?_, ?_, ?_, hsup, ?_⟩ <;>
      simp [MCentral_Init]
  · rfl

/-- Every reachable pool state satisfies the full pool invariant. -/
theorem reachable_wf {g : Geometry} {c : MCentral} {h : MHeap}
    (hr : Reachable g c h) : WF g c h := by
  induction hr with
  | init sizeclass h0 hg hsup => exact wf_init hg hsup
  | allocList c h n _ ih => exact (wf_allocList ih).1
  | freeList c h n chain c1 h1 _ hf ih => exact (wf_freeAll ih hf).1
  | grow c h _ ih =>
    obtain ⟨a, hcnt⟩ := ih
    obtain ⟨a', hcnt', _⟩ := wf_grow a
    exact ⟨a', hcnt' hcnt⟩

/-- Soundness of the executable invariant checker. -/
theorem WF_of_WFb {g : Geometry} {c : MCentral} {h : MHeap} (b : WFb g c h) :
    WF g c h := by
  obtain ⟨b1, b2, b3, b4, b5, b6, b7, b8, b9, b10, b11, b12, b13, b14, b15⟩ := b
  constructor
  · refine ⟨b1, b2, b3, fun id => ⟨b4 id, b5 id⟩, ?_, ?_, b8, b9, b10, b11, b12,
      b13, b14⟩
    · intro id s hm hgs
      exact b6 id hm s (by simp [hgs])
    · intro id s hm hgs
      exact b7 id hm s (by simp [hgs])
  · exact b15

/-- Claim C1: in every pool state reachable from an initialized pool by any
sequence of AllocateBatch (`MCentral_AllocList`), FreeBatch
(`MCentral_FreeList`) and `MCentral_Grow` operations — i.e. at every point
observable outside a locked critical section — every owned span is in the
`nonempty` list iff its free list is non-empty, and in the `empty` list iff
its free list is empty and its live-object count is positive.  The
single-object helpers perform the moves eagerly inside the operations, so
the equivalence holds at every observation point. -/
theorem claim_C1_list_membership {g : Geometry} {c : MCentral} {h : MHeap}
    (hr : Reachable g c h) : ListInv c := by
  obtain ⟨a, _⟩ := reachable_wf hr
  intro id s hgs
  have hkid : id ∈ c.spans.map Prod.fst :=
    lookupId_isSome.mp (by rw [getSpan] at hgs; rw [hgs]; rfl)
  have hlists : id ∈ c.nonempty ++ c.empty := (a.mem_iff id).mpr hkid
  constructor
  · constructor
    · intro hm
      exact a.nonempty_fl id s hm hgs
    · intro hfl
      rcases List.mem_append.mp hlists with hm | hm
      · exact hm
      · exact absurd (a.empty_fl id s hm hgs).1 hfl
  · constructor
    · intro hm
      exact a.empty_fl id s hm hgs
    · rintro ⟨hfl, _⟩
      rcases List.mem_append.mp hlists with hm | hm
      · exact absurd hfl (a.nonempty_fl id s hm hgs)
      · exact hm

theorem claim_C1_witness :
    ListInv (MCentral_AllocList gScen (MCentral_Init 0) hScen 10).2.2.1 :=
  claim_C1_list_membership
    (Reachable.allocList (MCentral_Init 0) hScen 10
      (Reachable.init 0 hScen (by decide) (by decide)))

/-- Claim C2: in every pool state reachable from an initialized pool by any
sequence of AllocateBatch, FreeBatch and Grow operations, the free-object
counter `nfree` equals the sum of the free-list lengths over all owned
spans.  The code maintains it incrementally (`c->nfree -= i`, `c->nfree++`,
`c->nfree += n`, `c->nfree -= (s->npages << PageShift) / size`); the model
proves the incrementally-adjusted value always agrees with the recomputed
sum. -/
theorem claim_C2_counter_accuracy {g : Geometry} {c : MCentral} {h : MHeap}
    (hr : Reachable g c h) : c.nfree = spanFreeSum c :=
  (reachable_wf hr).2

theorem claim_C2_witness :
    (MCentral_AllocList gScen (MCentral_Init 0) hScen 10).2.2.1.nfree =
      spanFreeSum (MCentral_AllocList gScen (MCentral_Init 0) hScen 10).2.2.1 :=
  claim_C2_counter_accuracy
    (Reachable.allocList (MCentral_Init 0) hScen 10
      (Reachable.init 0 hScen (by decide) (by decide)))

/-- Claim C5: the single-object free helper (which FreeBatch runs on every
chain object) hits the fatal `invalid free` path (modelled as `none`)
exactly when the heap's reverse lookup finds no owning span or the found
span's live count is already zero; these are the only fatal conditions, and
a fatal object aborts the whole batch. -/
theorem claim_C5_fatal_free (g : Geometry) (c : MCentral) (h : MHeap) (v : Nat) :
    (MCentral_Free g c h v = none ↔
      lookupSpan g c v = none ∨
        ∃ id s, lookupSpan g c v = some (id, s) ∧ s.ref = 0) ∧
    (MCentral_Free g c h v = none →
      ∀ n vs, MCentral_FreeList g c h n (v :: vs) = none) := by
  constructor
  · rcases hl : lookupSpan g c v with _ | ⟨id, s⟩
    · simp [MCentral_Free, hl]
    · by_cases href : s.ref = 0
      · simp only [MCentral_Free, hl, if_pos href]
        exact iff_of_true trivial (Or.inr ⟨id, s, rfl, href⟩)
      · apply iff_of_false
        · intro hf
          simp only [MCentral_Free, hl, if_neg href] at hf
          split at hf <;> simp at hf
        · rintro (h' | ⟨id', s', he, hr0⟩)
          · simp at h'
          · obtain ⟨_, h2'⟩ := Prod.ext_iff.mp (Option.some.inj he)
            have hss : s = s' := h2'
            subst hss
            exact href hr0
  · intro hf n vs
    simp [MCentral_FreeList, freeAll, hf]

/-- Claim C9: `runtime·MGetSizeClassInfo` returns the object size and span
page count from the external tables unchanged and computes objectsPerSpan as
`(spanPageCount << PageShift) / objectSize` (a pure read, no state mutated —
it is a pure function of `g` in this model); with objectSize 16,
spanPageCount 1, page size 8192 a span holds 512 objects, and the first
AllocateBatch of 10 on an empty pool grows exactly once (consuming exactly
one supply span), grants exactly 10 objects and leaves the counter at 502. -/
theorem claim_C9_geometry_and_scenarioA :
    (∀ g sc, MGetSizeClassInfo g sc =
      (g.class_to_size sc, g.class_to_allocnpages sc,
       ((g.class_to_allocnpages sc) <<< g.pageShift) / g.class_to_size sc)) ∧
    MGetSizeClassInfo gScen 0 = (16, 1, 512) ∧
    (MCentral_AllocList gScen (MCentral_Init 0) hScen 10).2.1 = 10 ∧
    (MCentral_AllocList gScen (MCentral_Init 0) hScen 10).1.length = 10 ∧
    (MCentral_AllocList gScen (MCentral_Init 0) hScen 10).2.2.1.nfree = 502 ∧
    (MCentral_AllocList gScen (MCentral_Init 0) hScen 10).2.2.2.supply = [2] := by
  refine ⟨fun g sc => rfl, ?_⟩
  decide

/-- Claim C10: `runtime·MCentral_FreeList` ignores its count parameter
(`USED(n)`): any two counts give identical results; the batch is delimited
solely by the chain's terminating link, and the batch effect is exactly the
chain-order fold of the single-object helper `MCentral_Free`. -/
theorem claim_C10_count_ignored (g : Geometry) (c : MCentral) (h : MHeap)
    (n m : Nat) (chain : List Nat) :
    MCentral_FreeList g c h n chain = MCentral_FreeList g c h m chain ∧
    MCentral_FreeList g c h n chain = freeAll g chain c h ∧
    (∀ v vs, MCentral_FreeList g c h n (v :: vs) =
      match MCentral_Free g c h v with
      | none => none
      | some r => MCentral_FreeList g r.1 r.2 m vs) := by
  refine ⟨rfl, rfl, fun v vs => ?_⟩
  rw [MCentral_FreeList, freeAll]
  rcases MCentral_Free g c h v with _ | ⟨c1, h1⟩ <;> rfl

theorem lookupId_eq_none {l : List (Nat × MSpan)} {id : Nat}
    (h : ∀ p ∈ l, p.1 ≠ id) : lookupId l id = none := by
  induction l with
  | nil => rfl
  | cons p t ih =>
    rw [lookupId_cons, if_neg (h p (by simp))]
    exact ih (fun q hq => h q (by simp [hq]))

theorem disjoint_ranges {g : Geometry} {np : Nat} {s t : MSpan}
    (hs : s.npages = np) (ht : t.npages = np)
    (hd : pagesDisjoint np s.start t.start) {w : Nat}
    (h1 : spanContains g s w) (h2 : spanContains g t w) : False := by
  obtain ⟨lo1, hi1⟩ := h1
  obtain ⟨lo2, hi2⟩ := h2
  rw [Nat.shiftLeft_eq] at lo1 hi1 lo2 hi2
  rw [hs] at hi1
  rw [ht] at hi2
  rcases hd with hd | hd
  · have : (s.start + np) * 2 ^ g.pageShift ≤ t.start * 2 ^ g.pageShift :=
      Nat.mul_le_mul_right _ hd
    omega
  · have : (t.start + np) * 2 ^ g.pageShift ≤ s.start * 2 ^ g.pageShift :=
      Nat.mul_le_mul_right _ hd
    omega

theorem allocList_heap (g : Geometry) (c : MCentral) (h : MHeap) (n : Nat) :
    (MCentral_AllocList g c h n).2.2.2 =
      (if c.nonempty.isEmpty then MCentral_Grow g c h else (true, c, h)).2.2 := by
  rcases hgr : (if c.nonempty.isEmpty then MCentral_Grow g c h else (true, c, h))
    with ⟨b, c1, h1⟩
  rw [MCentral_AllocList, hgr]
  rcases b with _ | _
  · rfl
  · rcases halloc : MCentral_Alloc c1 with ⟨o, c2⟩
    simp only [halloc]
    rcases o with _ | v <;> rfl

/-- Claim C3 counterexample: with requested count 0 (a legal `int32` count in
the C signature), `runtime·MCentral_AllocList` still removes one object and
returns granted count 1 > 0, because the copy loop bound only limits
iterations 2..n — so "the granted count never exceeds the requested count"
fails at count 0. -/
theorem claim_C3_counterexample :
    (MCentral_AllocList gTiny (MCentral_Init 0) hTiny 0).2.1 = 1 ∧
    ¬ ((MCentral_AllocList gTiny (MCentral_Init 0) hTiny 0).2.1 ≤ 0) := by
  decide

/-- Claim C3 (amended: for every requested count ≥ 1): AllocateBatch removes
objects from the head span's free list at most `count` times, so the granted
count never exceeds the requested count; the granted count equals the length
of the returned chain (threaded in removal order); and whenever the initial
Grow is not needed (`nonempty` non-empty) or would succeed (heap supply
non-empty), at least one object is granted. -/
theorem claim_C3_amended {g : Geometry} {c : MCentral} {h : MHeap} (n : Nat)
    (a : WFa g c h) (hn : 1 ≤ n) :
    (MCentral_AllocList g c h n).2.1 ≤ n ∧
    (MCentral_AllocList g c h n).1.length = (MCentral_AllocList g c h n).2.1 ∧
    ((c.nonempty ≠ [] ∨ h.supply ≠ []) → 1 ≤ (MCentral_AllocList g c h n).2.1) := by
  rcases allocList_run n a with ⟨hne, hsup, heq⟩ |
    ⟨c1, h1, v, c2, hcase, a1, hne1, hsc1, halloc, heq⟩
  · rw [heq]
    refine ⟨Nat.zero_le n, rfl, ?_⟩
    rintro (h' | h')
    · exact absurd hne h'
    · exact absurd hsup h'
  · rw [heq]
    have hlen : (allocMany c2 (n - 1)).1.length ≤ n - 1 := allocMany_length_le
    refine ⟨?_, rfl, fun _ => ?_⟩
    · show (v :: (allocMany c2 (n - 1)).1).length ≤ n
      simp only [List.length_cons]
      omega
    · show 1 ≤ (v :: (allocMany c2 (n - 1)).1).length
      simp

theorem claim_C3_witness :
    (MCentral_AllocList gTiny (MCentral_Init 0) hTiny 3).2.1 ≤ 3 ∧
    (MCentral_AllocList gTiny (MCentral_Init 0) hTiny 3).1.length =
      (MCentral_AllocList gTiny (MCentral_Init 0) hTiny 3).2.1 ∧
    (((MCentral_Init 0).nonempty ≠ [] ∨ hTiny.supply ≠ []) →
      1 ≤ (MCentral_AllocList gTiny (MCentral_Init 0) hTiny 3).2.1) :=
  claim_C3_amended 3 (WF_of_WFb (by decide)).1 (by decide)

/-- Claim C4: AllocateBatch returns the out-of-memory signal (empty chain,
granted count 0) iff the `nonempty` list is empty on entry and Grow fails
because the heap supply is exhausted; in that case the pool state and the
heap are returned untouched (no retry happens inside this layer — the
operation is a single pass). -/
theorem claim_C4_oom_signal {g : Geometry} {c : MCentral} {h : MHeap} (n : Nat)
    (a : WFa g c h) :
    (((MCentral_AllocList g c h n).1 = [] ∧ (MCentral_AllocList g c h n).2.1 = 0) ↔
      (c.nonempty = [] ∧ h.supply = [])) ∧
    (c.nonempty = [] → h.supply = [] →
      MCentral_AllocList g c h n = ([], 0, c, h)) := by
  rcases allocList_run n a with ⟨hne, hsup, heq⟩ |
    ⟨c1, h1, v, c2, hcase, a1, hne1, hsc1, halloc, heq⟩
  · refine ⟨?_, fun _ _ => heq⟩
    rw [heq]
    exact iff_of_true ⟨rfl, rfl⟩ ⟨hne, hsup⟩
  · constructor
    · rw [heq]
      apply iff_of_false
      · rintro ⟨hchain, _⟩
        exact absurd hchain (by simp)
      · rintro ⟨hne0, hsup0⟩
        rcases hcase with ⟨hgrow, _⟩ | ⟨_, _, hne'⟩
        · rw [grow_fail hsup0] at hgrow
          exact absurd (Prod.ext_iff.mp hgrow).1 (by simp)
        · exact hne' hne0
    · intro hne0 hsup0
      rcases hcase with ⟨hgrow, _⟩ | ⟨_, _, hne'⟩
      · rw [grow_fail hsup0] at hgrow
        exact absurd (Prod.ext_iff.mp hgrow).1 (by simp)
      · exact absurd hne0 hne'

theorem claim_C4_witness :
    (((MCentral_AllocList gTiny (MCentral_Init 0) hEmpty 4).1 = [] ∧
      (MCentral_AllocList gTiny (MCentral_Init 0) hEmpty 4).2.1 = 0) ↔
      ((MCentral_Init 0).nonempty = [] ∧ hEmpty.supply = [])) ∧
    ((MCentral_Init 0).nonempty = [] → hEmpty.supply = [] →
      MCentral_AllocList gTiny (MCentral_Init 0) hEmpty 4 =
        ([], 0, MCentral_Init 0, hEmpty)) :=
  claim_C4_oom_signal 4 (WF_of_WFb (by decide)).1

/-- Claim C7 counterexample: AllocateBatch(600) on a fresh pool whose spans
hold 512 objects grants only 512 and leaves the second supply span
untouched — it does not Grow again mid-batch even though a further Grow
would succeed — contradicting "it invokes Grow again mid-batch ...
returning fewer objects than requested only if that further Grow fails". -/
theorem claim_C7_counterexample :
    (MCentral_AllocList gScen (MCentral_Init 0) hScen 600).2.1 = 512 ∧
    (MCentral_AllocList gScen (MCentral_Init 0) hScen 600).2.2.2.supply = [2] ∧
    (MCentral_AllocList gScen (MCentral_Init 0) hScen 600).2.1 ≠ 600 ∧
    (MCentral_Grow gScen (MCentral_AllocList gScen (MCentral_Init 0) hScen 600).2.2.1
      (MCentral_AllocList gScen (MCentral_Init 0) hScen 600).2.2.2).1 = true := by
  decide

/-- Claim C7 (amended): when AllocateBatch exhausts the pool's free objects
partway through a batch, the copy loop stops early and the partial count is
returned; Grow is invoked at most once, only before the first object (the
heap supply is consumed exactly when the `nonempty` list was empty on
entry); concretely, AllocateBatch(600) on a fresh pool with 512-object
spans grants 512 from the single initial Grow, leaving further supply
unconsumed. -/
theorem claim_C7_amended (g : Geometry) (c : MCentral) (h : MHeap) (n : Nat) :
    ((MCentral_AllocList g c h n).2.2.2.supply =
      (if c.nonempty.isEmpty then h.supply.tail else h.supply)) ∧
    (MCentral_AllocList gScen (MCentral_Init 0) hScen 600).2.1 = 512 ∧
    (MCentral_AllocList gScen (MCentral_Init 0) hScen 600).2.2.2.supply = [2] := by
  refine ⟨?_, by decide, by decide⟩
  rw [allocList_heap]
  by_cases hbe : c.nonempty.isEmpty
  · rw [if_pos hbe, if_pos hbe]
    rcases hsup : h.supply with _ | ⟨q, qs⟩
    · rw [grow_fail hsup]
      show h.supply = List.tail []
      rw [hsup]
      rfl
    · rw [grow_spec hsup]
      show qs = List.tail (q :: qs)
      rfl
  · rw [if_neg hbe, if_neg hbe]

/-- Claim C6: a span is handed back to the page heap exactly when a free
makes its live-object count reach zero, and exactly once per carved lifetime
(afterwards the span is no longer owned and none of its addresses resolve);
at that moment (not before) the span leaves its span list and the pool's
span map, the needs-zeroing sentinel is written at its first word, its
free-list head is cleared, and the counter drops by the span's total object
count `(npages << PageShift) / size` (net of the `nfree++` for the object
just pushed). -/
theorem claim_C6_span_return {g : Geometry} {c : MCentral} {h : MHeap}
    {v id : Nat} {s : MSpan} (w : WF g c h)
    (hl : lookupSpan g c v = some (id, s)) (href : 0 < s.ref) :
    ∃ c' h', MCentral_Free g c h v = some (c', h') ∧
      (s.ref = 1 →
        h'.freed = { s with freelist := [], ref := 0 } :: h.freed ∧
        h'.sentinels = (s.start <<< g.pageShift) :: h.sentinels ∧
        h'.supply = h.supply ∧
        getSpan c' id = none ∧
        id ∉ c'.nonempty ∧ id ∉ c'.empty ∧
        (∀ u, spanContains g s u → lookupSpan g c' u = none) ∧
        c'.nfree = c.nfree + 1 - ((spanTotal g c.sizeclass s : Nat) : Int)) ∧
      (1 < s.ref →
        h' = h ∧
        getSpan c' id =
          some { s with freelist := v :: s.freelist, ref := s.ref - 1 } ∧
        c'.nfree = c.nfree + 1) := by
  obtain ⟨a, hcnt⟩ := w
  have href' : s.ref ≠ 0 := by omega
  obtain ⟨l1, l2, hdec, hcont, h1, h2, hrem, hnorem⟩ := MCentral_Free_spec a hl href'
  obtain ⟨hgs, hkid, hfacts0, hfacts1⟩ := free_mem_facts a hdec
  have hnodne : c.nonempty.Nodup := a.lists_nodup.of_append_left
  have hnodem : c.empty.Nodup := a.lists_nodup.of_append_right
  by_cases hr1 : s.ref = 1
  · refine ⟨_, _, hrem hr1, fun _ => ?_, fun hgt => absurd hr1 (by omega)⟩
    have hne' : (if s.freelist.isEmpty then id :: c.nonempty else c.nonempty).erase id =
        c.nonempty.erase id := by
      by_cases hfe : s.freelist.isEmpty
      · obtain ⟨hnon, _⟩ := hfacts0 (by simpa using hfe)
        rw [if_pos hfe, List.erase_cons_head, List.erase_of_not_mem hnon]
      · rw [if_neg hfe]
    have hem' : (if s.freelist.isEmpty then c.empty.erase id else c.empty).erase id =
        c.empty.erase id := by
      by_cases hfe : s.freelist.isEmpty
      · rw [if_pos hfe, List.erase_of_not_mem]
        intro hmem'
        exact absurd (hnodem.mem_erase_iff.mp hmem').1 (by simp)
      · rw [if_neg hfe]
    refine ⟨by simp [hr1], rfl, rfl, ?_, ?_, ?_, ?_, rfl⟩
    · show lookupId (l1 ++ l2) id = none
      apply lookupId_eq_none
      intro p hp
      rcases List.mem_append.mp hp with hp' | hp'
      · exact h1 p hp'
      · exact h2 p hp'
    · show id ∉ (if s.freelist.isEmpty then id :: c.nonempty else c.nonempty).erase id
      rw [hne']
      intro hmem'
      exact absurd (hnodne.mem_erase_iff.mp hmem').1 (by simp)
    · show id ∉ (if s.freelist.isEmpty then c.empty.erase id else c.empty).erase id
      rw [hem']
      intro hmem'
      exact absurd (hnodem.mem_erase_iff.mp hmem').1 (by simp)
    · intro u hu
      show (l1 ++ l2).find? (fun p => decide (spanContains g p.2 u)) = none
      rw [List.find?_eq_none]
      intro p hp
      have hpw := a.spans_disj
      rw [hdec] at hpw
      rw [List.pairwise_append] at hpw
      obtain ⟨_, hp2, hcross⟩ := hpw
      have hpdis : pagesDisjoint (g.class_to_allocnpages c.sizeclass)
          p.2.start s.start := by
        rcases List.mem_append.mp hp with hp' | hp'
        · exact hcross p hp' (id, s) (by simp)
        · exact pagesDisjoint_symm ((List.pairwise_cons.mp hp2).1 p hp')
      have hmemp : p ∈ c.spans := by
        rw [hdec]
        rcases List.mem_append.mp hp with hp' | hp'
        · exact List.mem_append.mpr (Or.inl hp')
        · exact List.mem_append.mpr (Or.inr (List.mem_cons_of_mem _ hp'))
      have hnp1 : p.2.npages = g.class_to_allocnpages c.sizeclass := a.span_np p hmemp
      have hnp2 : s.npages = g.class_to_allocnpages c.sizeclass :=
        a.span_np (id, s) (by rw [hdec]; simp)
      simp only [decide_eq_true_eq]
      intro hcu
      exact disjoint_ranges hnp1 hnp2 hpdis hcu hu
  · refine ⟨_, _, hnorem hr1, fun hq1 => absurd hq1 hr1, fun _ => ⟨rfl, ?_, rfl⟩⟩
    exact lookupId_append_mid _ h1

theorem claim_C6_witness :
    ∃ c' h', MCentral_Free gTiny cOneLive hEmpty 4 = some (c', h') ∧
      ((⟨4, 1, [], 1, 5⟩ : MSpan).ref = 1 →
        h'.freed = { (⟨4, 1, [], 1, 5⟩ : MSpan) with freelist := [], ref := 0 } ::
          hEmpty.freed ∧
        h'.sentinels = ((4 : Nat) <<< gTiny.pageShift) :: hEmpty.sentinels ∧
        h'.supply = hEmpty.supply ∧
        getSpan c' 4 = none ∧
        4 ∉ c'.nonempty ∧ 4 ∉ c'.empty ∧
        (∀ u, spanContains gTiny (⟨4, 1, [], 1, 5⟩ : MSpan) u →
          lookupSpan gTiny c' u = none) ∧
        c'.nfree = cOneLive.nfree + 1 -
          ((spanTotal gTiny cOneLive.sizeclass (⟨4, 1, [], 1, 5⟩ : MSpan) : Nat) : Int)) ∧
      (1 < (⟨4, 1, [], 1, 5⟩ : MSpan).ref →
        h' = hEmpty ∧
        getSpan c' 4 = some { (⟨4, 1, [], 1, 5⟩ : MSpan) with
          freelist := 4 :: (⟨4, 1, [], 1, 5⟩ : MSpan).freelist,
          ref := (⟨4, 1, [], 1, 5⟩ : MSpan).ref - 1 } ∧
        c'.nfree = cOneLive.nfree + 1) :=
  claim_C6_span_return (WF_of_WFb (by decide)) (by decide) (by decide)

theorem cntIn_nil (g : Geometry) (s : MSpan) : cntIn g s [] = 0 := rfl

theorem cntIn_cons (g : Geometry) (s : MSpan) (v : Nat) (out : List Nat) :
    cntIn g s (v :: out) =
      if spanContains g s v then cntIn g s out + 1 else cntIn g s out := by
  rw [cntIn, List.filter_cons]
  by_cases h : spanContains g s v <;> simp [h, cntIn]

theorem cntIn_append_one (g : Geometry) (s : MSpan) (out : List Nat) (v : Nat) :
    cntIn g s (out ++ [v]) =
      cntIn g s out + (if spanContains g s v then 1 else 0) := by
  rw [cntIn, List.filter_append, List.length_append, List.filter_cons]
  by_cases h : spanContains g s v <;> simp [h, cntIn]

theorem spanContains_congr {g : Geometry} {s t : MSpan} (h1 : s.start = t.start)
    (h2 : s.npages = t.npages) (v : Nat) :
    spanContains g s v ↔ spanContains g t v := by
  unfold spanContains
  rw [h1, h2]

theorem forall2_split_left {R : Nat × MSpan → Nat × MSpan → Prop}
    {l1 l2 l0 : List (Nat × MSpan)} {x : Nat × MSpan}
    (hf : List.Forall₂ R (l1 ++ x :: l2) l0) :
    ∃ m1 y m2, l0 = m1 ++ y :: m2 ∧ List.Forall₂ R l1 m1 ∧ R x y ∧
      List.Forall₂ R l2 m2 := by
  induction l1 generalizing l0 with
  | nil =>
    rcases l0 with _ | ⟨y, m⟩
    · cases hf
    · obtain ⟨hxy, hrest⟩ := List.forall₂_cons.mp hf
      exact ⟨[], y, m, rfl, List.Forall₂.nil, hxy, hrest⟩
  | cons a l ih =>
    rcases l0 with _ | ⟨y, m⟩
    · cases hf
    · obtain ⟨hay, hrest⟩ := List.forall₂_cons.mp hf
      obtain ⟨m1, y', m2, hm, hf1, hxy, hf2⟩ := ih hrest
      exact ⟨y :: m1, y', m2, by simp [hm], List.Forall₂.cons hay hf1, hxy, hf2⟩

theorem delta_refl (g : Geometry) (c0 : MCentral) : Delta g c0 c0 [] := by
  constructor
  · apply List.forall₂_same.mpr
    intro p _
    exact ⟨rfl, rfl, rfl, by rw [cntIn_nil]; omega, by rw [cntIn_nil]; omega⟩
  · intro v hv
    simp at hv

/-- A `Delta` with no outstanding objects means the bookkeeping shape of
every span (and their keys and order) is fully restored. -/
theorem delta_nil_shape_aux {g : Geometry} {l l0 : List (Nat × MSpan)}
    (hf : List.Forall₂ (spanRel g []) l l0) :
    l.map spanShape = l0.map spanShape := by
  induction hf with
  | nil => rfl
  | cons hR hrest ih =>
    rename_i p q tl1 tl2
    obtain ⟨h1, h2, h3, h4, h5⟩ := hR
    simp only [List.map_cons, ih]
    rw [cntIn_nil] at h4 h5
    congr 1
    rw [spanShape, spanShape, h1, h2, h3]
    have h4' : p.2.freelist.length = q.2.freelist.length := by omega
    have h5' : p.2.ref = q.2.ref := by omega
    rw [h4', h5']

/-- A `Delta` with no outstanding objects means the bookkeeping shape of
every span (and their keys and order) is fully restored. -/
theorem delta_nil_shape {g : Geometry} {c0 c2 : MCentral}
    (hd : Delta g c0 c2 []) :
    c2.spans.map spanShape = c0.spans.map spanShape :=
  delta_nil_shape_aux hd.1

theorem forall2_cnt_extend {g : Geometry} {out : List Nat} {v : Nat}
    {l m : List (Nat × MSpan)} (hf : List.Forall₂ (spanRel g out) l m)
    (hnc : ∀ q ∈ m, ¬ spanContains g (Prod.snd q) v) :
    List.Forall₂ (spanRel g (out ++ [v])) l m := by
  induction hf with
  | nil => exact List.Forall₂.nil
  | cons hR hrest ih =>
    rename_i p q tl tm
    refine List.Forall₂.cons ?_ (ih (fun q' hq' => hnc q' (by simp [hq'])))
    obtain ⟨h1, h2, h3, h4, h5⟩ := hR
    have hq : ¬ spanContains g q.2 v := hnc q (by simp)
    refine ⟨h1, h2, h3, ?_, ?_⟩ <;>
      rw [cntIn_append_one, if_neg hq] <;> omega

/-- One step of the copy loop, tracked against the round-trip bookkeeping:
a successful single-object allocation extends the outstanding multiset by
its object and keeps the `Delta` relation, the allocation-order suffix
property of the `nonempty` list, and `nfree`. -/
theorem alloc_delta_step {g : Geometry} {c0 c : MCentral} {hp : MHeap}
    {out : List Nat} {id : Nat} {rest : List Nat}
    (a0 : WFa g c0 hp) (a : WFa g c hp)
    (hd : Delta g c0 c out) (hj : ∃ j, c.nonempty = c0.nonempty.drop j)
    (hne : c.nonempty = id :: rest) :
    ∃ v c', MCentral_Alloc c = (some v, c') ∧ WFa g c' hp ∧
      Delta g c0 c' (out ++ [v]) ∧
      (∃ j', c'.nonempty = c0.nonempty.drop j') ∧ c'.nfree = c.nfree := by
  obtain ⟨s, v, fl, l1, l2, hgs, hfl, hdec, h1f, h2f, halloc⟩ := MCentral_Alloc_spec a hne
  obtain ⟨v', c'', halloc', a', hsum', hnf', hsc'⟩ := wfa_alloc_succ a hne
  rw [halloc] at halloc'
  obtain ⟨hv, hc⟩ := Prod.ext_iff.mp halloc'
  obtain rfl : v = v' := Option.some.inj hv
  obtain rfl := hc
  obtain ⟨hforall, hout⟩ := hd
  rw [hdec] at hforall
  obtain ⟨m1, q, m2, hm, hfm1, hRmid, hfm2⟩ := forall2_split_left hforall
  obtain ⟨hq1, hq2, hq3, hq4, hq5⟩ := hRmid
  have hqid : q.1 = id := hq1.symm
  have hmemid : (id, s) ∈ c.spans := by rw [hdec]; simp
  have hcv : spanContains g s v :=
    a.fl_range (id, s) hmemid v (by rw [hfl]; simp)
  have hcvq : spanContains g q.2 v := (spanContains_congr hq2 hq3 v).mp hcv
  have hqmem : q ∈ c0.spans := by rw [hm]; simp
  -- entries other than the middle do not contain v
  have hdisj0 := a0.spans_disj
  rw [hm, List.pairwise_append] at hdisj0
  obtain ⟨_, hd2, hcross⟩ := hdisj0
  have hnc1 : ∀ q' ∈ m1, ¬ spanContains g (Prod.snd q') v := by
    intro q' hq' hcon
    have hpd : pagesDisjoint (g.class_to_allocnpages c0.sizeclass)
        q'.2.start q.2.start := hcross q' hq' q (by simp)
    exact disjoint_ranges (a0.span_np q' (by rw [hm]; simp [hq']))
      (a0.span_np q hqmem) hpd hcon hcvq
  have hnc2 : ∀ q' ∈ m2, ¬ spanContains g (Prod.snd q') v := by
    intro q' hq' hcon
    have hpd : pagesDisjoint (g.class_to_allocnpages c0.sizeclass)
        q.2.start q'.2.start := (List.pairwise_cons.mp hd2).1 q' hq'
    exact disjoint_ranges (a0.span_np q' (by rw [hm]; simp [hq']))
      (a0.span_np q hqmem) (pagesDisjoint_symm hpd) hcon hcvq
  obtain ⟨j, hjc⟩ := hj
  have hidmem0 : id ∈ c0.nonempty := by
    have : id ∈ c.nonempty := by rw [hne]; simp
    rw [hjc] at this
    exact List.drop_subset j c0.nonempty this
  refine ⟨v, _, halloc, a', ⟨?_, ?_⟩, ?_, hnf'⟩
  · -- Forall₂ for the new spans
    show List.Forall₂ (spanRel g (out ++ [v]))
      (l1 ++ (id, { s with ref := s.ref + 1, freelist := fl }) :: l2) c0.spans
    rw [hm]
    refine List.rel_append (forall2_cnt_extend hfm1 hnc1)
      (List.Forall₂.cons ?_ (forall2_cnt_extend hfm2 hnc2))
    have hcnt : cntIn g q.2 (out ++ [v]) = cntIn g q.2 out + 1 := by
      rw [cntIn_append_one, if_pos hcvq]
    refine ⟨by simpa using hq1, by simpa using hq2, by simpa using hq3, ?_, ?_⟩
    · show fl.length + cntIn g q.2 (out ++ [v]) = q.2.freelist.length
      rw [hcnt]
      have hsl : s.freelist.length = fl.length + 1 := by rw [hfl]; rfl
      have hq4' : s.freelist.length + cntIn g q.2 out = q.2.freelist.length := hq4
      omega
    · show s.ref + 1 = q.2.ref + cntIn g q.2 (out ++ [v])
      rw [hcnt]
      have hq5' : s.ref = q.2.ref + cntIn g q.2 out := hq5
      omega
  · -- outstanding objects
    intro u hu
    rcases List.mem_append.mp hu with hu' | hu'
    · exact hout u hu'
    · obtain rfl : u = v := by simpa using hu'
      exact ⟨q, hqmem, hcvq, by rw [hqid]; exact hidmem0⟩
  · -- suffix property
    by_cases hfe : fl.isEmpty
    · refine ⟨j + 1, ?_⟩
      show (if fl.isEmpty then rest else id :: rest) = c0.nonempty.drop (j + 1)
      rw [if_pos hfe]
      have : c0.nonempty.drop (j + 1) = (c0.nonempty.drop j).drop 1 := by
        rw [List.drop_drop]
      rw [this, ← hjc, hne]
      rfl
    · refine ⟨j, ?_⟩
      show (if fl.isEmpty then rest else id :: rest) = c0.nonempty.drop j
      rw [if_neg hfe, ← hne, hjc]

/-- The copy loop, tracked against the round-trip bookkeeping. -/
theorem allocMany_delta {g : Geometry} {c0 : MCentral} {hp : MHeap}
    (a0 : WFa g c0 hp) :
    ∀ (k : Nat) (c : MCentral) (out : List Nat), WFa g c hp →
      Delta g c0 c out → (∃ j, c.nonempty = c0.nonempty.drop j) →
      WFa g (allocMany c k).2 hp ∧
        Delta g c0 (allocMany c k).2 (out ++ (allocMany c k).1) ∧
        (∃ j', (allocMany c k).2.nonempty = c0.nonempty.drop j') ∧
        (allocMany c k).2.nfree = c.nfree := by
  intro k
  induction k with
  | zero =>
    intro c out a hd hj
    exact ⟨a, by simpa [allocMany] using hd, hj, rfl⟩
  | succ k ih =>
    intro c out a hd hj
    rcases hne : c.nonempty with _ | ⟨id, rest⟩
    · have heq : allocMany c (k + 1) = ([], c) := by
        simp [allocMany, MCentral_Alloc_none hne]
      rw [heq]
      exact ⟨a, by simpa using hd, hj, rfl⟩
    · obtain ⟨v, c', halloc, a', hd', hj', hnf'⟩ :=
        alloc_delta_step a0 a hd hj hne
      have heq : allocMany c (k + 1) = (v :: (allocMany c' k).1, (allocMany c' k).2) := by
        simp [allocMany, halloc]
      rw [heq]
      obtain ⟨a2, hd2, hj2, hnf2⟩ := ih c' (out ++ [v]) a' hd' hj'
      refine ⟨a2, ?_, hj2, by rw [hnf2, hnf']⟩
      have : out ++ v :: (allocMany c' k).1 = (out ++ [v]) ++ (allocMany c' k).1 := by
        simp
      rw [this]
      exact hd2

theorem split_unique {l1 l2 l1' l2' : List (Nat × MSpan)} {id : Nat} {s s' : MSpan}
    (he : l1 ++ (id, s) :: l2 = l1' ++ (id, s') :: l2')
    (h1 : ∀ p ∈ l1, p.1 ≠ id) (h1' : ∀ p ∈ l1', p.1 ≠ id) :
    l1 = l1' ∧ s = s' ∧ l2 = l2' := by
  induction l1 generalizing l1' with
  | nil =>
    cases l1' with
    | nil =>
      simp only [List.nil_append] at he
      obtain ⟨he1, he2⟩ := List.cons.inj he
      exact ⟨rfl, (Prod.ext_iff.mp he1).2, he2⟩
    | cons p' t' =>
      simp only [List.nil_append, List.cons_append] at he
      obtain ⟨he1, _⟩ := List.cons.inj he
      exact absurd (congrArg Prod.fst he1.symm) (h1' p' (by simp))
  | cons p t ih =>
    cases l1' with
    | nil =>
      simp only [List.nil_append, List.cons_append] at he
      obtain ⟨he1, _⟩ := List.cons.inj he
      exact absurd (congrArg Prod.fst he1) (h1 p (by simp))
    | cons p' t' =>
      simp only [List.cons_append] at he
      obtain ⟨he1, he2⟩ := List.cons.inj he
      obtain ⟨ht, hs, hl⟩ := ih he2 (fun x hx => h1 x (by simp [hx]))
        (fun x hx => h1' x (by simp [hx]))
      exact ⟨by rw [he1, ht], hs, hl⟩

theorem forall2_cnt_shrink {g : Geometry} {rest : List Nat} {v : Nat}
    {l m : List (Nat × MSpan)} (hf : List.Forall₂ (spanRel g (v :: rest)) l m)
    (hnc : ∀ q ∈ m, ¬ spanContains g (Prod.snd q) v) :
    List.Forall₂ (spanRel g rest) l m := by
  induction hf with
  | nil => exact List.Forall₂.nil
  | cons hR hrest ih =>
    rename_i p q tl tm
    refine List.Forall₂.cons ?_ (ih (fun q' hq' => hnc q' (by simp [hq'])))
    obtain ⟨h1, h2, h3, h4, h5⟩ := hR
    have hq : ¬ spanContains g q.2 v := hnc q (by simp)
    rw [cntIn_cons, if_neg hq] at h4 h5
    exact ⟨h1, h2, h3, h4, h5⟩

theorem forall2_contains_left {g : Geometry} {out : List Nat} {v : Nat}
    {l m : List (Nat × MSpan)} (hf : List.Forall₂ (spanRel g out) l m)
    (hex : ∃ q ∈ m, spanContains g (Prod.snd q) v) :
    ∃ p ∈ l, spanContains g (Prod.snd p) v := by
  induction hf with
  | nil => simpa using hex
  | cons hR hrest ih =>
    rename_i p q tl tm
    obtain ⟨q', hq', hc'⟩ := hex
    rcases List.mem_cons.mp hq' with rfl | hq''
    · exact ⟨p, by simp, (spanContains_congr hR.2.1 hR.2.2.1 v).mpr hc'⟩
    · obtain ⟨p', hp', hc''⟩ := ih ⟨q', hq'', hc'⟩
      exact ⟨p', by simp [hp'], hc''⟩

theorem mids_not_contain {g : Geometry} {c0 : MCentral} {hp : MHeap}
    (a0 : WFa g c0 hp) {m1 m2 : List (Nat × MSpan)} {q : Nat × MSpan}
    (hm : c0.spans = m1 ++ q :: m2) {v : Nat}
    (hcvq : spanContains g (Prod.snd q) v) :
    (∀ q' ∈ m1, ¬ spanContains g (Prod.snd q') v) ∧
      (∀ q' ∈ m2, ¬ spanContains g (Prod.snd q') v) := by
  have hqmem : q ∈ c0.spans := by rw [hm]; simp
  have hdisj0 := a0.spans_disj
  rw [hm, List.pairwise_append] at hdisj0
  obtain ⟨_, hd2, hcross⟩ := hdisj0
  constructor
  · intro q' hq' hcon
    have hpd : pagesDisjoint (g.class_to_allocnpages c0.sizeclass)
        q'.2.start q.2.start := hcross q' hq' q (by simp)
    exact disjoint_ranges (a0.span_np q' (by rw [hm]; simp [hq']))
      (a0.span_np q hqmem) hpd hcon hcvq
  · intro q' hq' hcon
    have hpd : pagesDisjoint (g.class_to_allocnpages c0.sizeclass)
        q.2.start q'.2.start := (List.pairwise_cons.mp hd2).1 q' hq'
    exact disjoint_ranges (a0.span_np q' (by rw [hm]; simp [hq']))
      (a0.span_np q hqmem) (pagesDisjoint_symm hpd) hcon hcvq

/-- The free loop, tracked against the round-trip bookkeeping: when every
span owned by the base state has a positive live-object count, freeing back
every outstanding object succeeds without returning any span to the heap
and restores the bookkeeping of every span and the counter. -/
theorem freeAll_delta {g : Geometry} {c0 : MCentral} {hp : MHeap}
    (a0 : WFa g c0 hp) (hpos : ∀ p ∈ c0.spans, 0 < (Prod.snd p).ref) :
    ∀ (out : List Nat) (c : MCentral), WF g c hp → Delta g c0 c out →
      c.nfree = c0.nfree - out.length →
      ∃ c2, freeAll g out c hp = some (c2, hp) ∧ Delta g c0 c2 [] ∧
        c2.nfree = c0.nfree := by
  intro out
  induction out with
  | nil =>
    intro c w hd hnf
    exact ⟨c, rfl, hd, by simpa using hnf⟩
  | cons v rest ih =>
    intro c w hd hnf
    obtain ⟨a, hcnt⟩ := w
    obtain ⟨hforall, hout⟩ := hd
    obtain ⟨q0, hq0mem, hq0cont, _⟩ := hout v (by simp)
    obtain ⟨p0, hp0mem, hp0cont⟩ := forall2_contains_left hforall ⟨q0, hq0mem, hq0cont⟩
    have hsome : (lookupSpan g c v).isSome := by
      rw [lookupSpan]
      exact List.find?_isSome.mpr ⟨p0, hp0mem, by simpa using hp0cont⟩
    rcases hl : lookupSpan g c v with _ | ⟨id, s⟩
    · rw [hl] at hsome
      simp at hsome
    · obtain ⟨hmem, hcont⟩ := lookupSpan_some hl
      have hgs : getSpan c id = some s := lookupId_of_mem_nodup a.keys_nodup hmem
      obtain ⟨l1, l2, hdec, h1f, h2f⟩ := wfa_split a hgs
      have hforall' := hforall
      rw [hdec] at hforall'
      obtain ⟨m1, q, m2, hm, hfm1, hRmid, hfm2⟩ := forall2_split_left hforall'
      obtain ⟨hq1, hq2, hq3, hq4, hq5⟩ := hRmid
      have hq4' : s.freelist.length + cntIn g q.2 (v :: rest) = q.2.freelist.length := hq4
      have hq5' : s.ref = q.2.ref + cntIn g q.2 (v :: rest) := hq5
      have hcvq : spanContains g q.2 v := by
        have h2' : s.start = q.2.start := hq2
        have h3' : s.npages = q.2.npages := hq3
        exact (spanContains_congr h2' h3' v).mp hcont
      have hcntv : cntIn g q.2 (v :: rest) = cntIn g q.2 rest + 1 := by
        rw [cntIn_cons, if_pos hcvq]
      have hqmem : q ∈ c0.spans := by rw [hm]; simp
      have hrefq : 0 < q.2.ref := hpos q hqmem
      have href' : s.ref ≠ 0 := by omega
      have hr1ne : s.ref ≠ 1 := by omega
      obtain ⟨l1', l2', hdec', hcont2, h1f', h2f', _, hnorem⟩ :=
        MCentral_Free_spec a hl href'
      obtain ⟨hl1e, _, hl2e⟩ := split_unique (hdec.symm.trans hdec') h1f h1f'
      subst hl1e
      subst hl2e
      have hfree := hnorem hr1ne
      -- step the loop
      have hstep : freeAll g (v :: rest) c hp =
          freeAll g rest
            { sizeclass := c.sizeclass,
              nonempty := if s.freelist.isEmpty then id :: c.nonempty else c.nonempty,
              empty := if s.freelist.isEmpty then c.empty.erase id else c.empty,
              spans := l1 ++ (id, { s with freelist := v :: s.freelist,
                                           ref := s.ref - 1 }) :: l2,
              nfree := c.nfree + 1 } hp := by
        rw [freeAll, hfree]
      obtain ⟨w', _, _⟩ := wf_free ⟨a, hcnt⟩ hfree
      obtain ⟨hnc1, hnc2⟩ := mids_not_contain a0 hm hcvq
      have hd' : Delta g c0
          { sizeclass := c.sizeclass,
            nonempty := if s.freelist.isEmpty then id :: c.nonempty else c.nonempty,
            empty := if s.freelist.isEmpty then c.empty.erase id else c.empty,
            spans := l1 ++ (id, { s with freelist := v :: s.freelist,
                                         ref := s.ref - 1 }) :: l2,
            nfree := c.nfree + 1 } rest := by
        constructor
        · show List.Forall₂ (spanRel g rest)
            (l1 ++ (id, { s with freelist := v :: s.freelist, ref := s.ref - 1 }) :: l2)
            c0.spans
          rw [hm]
          refine List.rel_append (forall2_cnt_shrink hfm1 hnc1)
            (List.Forall₂.cons ?_ (forall2_cnt_shrink hfm2 hnc2))
          refine ⟨by simpa using hq1, by simpa using hq2, by simpa using hq3, ?_, ?_⟩
          · show (v :: s.freelist).length + cntIn g q.2 rest = q.2.freelist.length
            simp only [List.length_cons]
            omega
          · show s.ref - 1 = q.2.ref + cntIn g q.2 rest
            omega
        · intro u hu
          exact hout u (by simp [hu])
      have hnf' : (c.nfree + 1 : Int) = c0.nfree - rest.length := by
        rw [hnf]
        simp only [List.length_cons]
        push_cast
        ring
      obtain ⟨c2, hrun, hd2, hnf2⟩ := ih _ w' hd' hnf'
      exact ⟨c2, by rw [hstep]; exact hrun, hd2, hnf2⟩

/-- The free loop on a pool headed by one freshly grown span that owns all
the outstanding objects: freeing them all back returns that span to the heap
on the last free (its live count reaches zero exactly then), leaving the
remaining spans untouched and the counter net of the span's total object
count. -/
theorem freeAll_grow {g : Geometry} {sc p : Nat} {tail : List (Nat × MSpan)} :
    ∀ (out : List Nat) (Bcur : MSpan) (ccur : MCentral) (hcur : MHeap),
      WF g ccur hcur → ccur.sizeclass = sc →
      ccur.spans = (p, Bcur) :: tail →
      Bcur.ref = out.length → 0 < out.length →
      (∀ v ∈ out, spanContains g Bcur v) →
      ∃ c2 h2, freeAll g out ccur hcur = some (c2, h2) ∧ c2.spans = tail ∧
        c2.nfree = ccur.nfree + (out.length : Int) -
          ((spanTotal g sc Bcur : Nat) : Int) := by
  intro out
  induction out with
  | nil =>
    intro Bcur ccur hcur _ _ _ _ hpos _
    exact absurd hpos (by simp)
  | cons v rest ih =>
    intro Bcur ccur hcur w hsc hspans href hpos hcont
    obtain ⟨a, hcnt⟩ := w
    have hlook : lookupSpan g ccur v = some (p, Bcur) := by
      rw [lookupSpan, hspans]
      exact List.find?_cons_of_pos _ (by simpa using hcont v (by simp))
    have href0 : Bcur.ref ≠ 0 := by
      rw [href]
      simp
    obtain ⟨l1', l2', hdec', hcont', h1f', h2f', hrem, hnorem⟩ :=
      MCentral_Free_spec a hlook href0
    obtain ⟨hl1, _, hl2⟩ := split_unique
      (show [] ++ (p, Bcur) :: tail = l1' ++ (p, Bcur) :: l2' from
        hspans.symm.trans hdec')
      (by simp) h1f'
    obtain rfl := hl1.symm
    obtain rfl := hl2
    rcases rest with _ | ⟨v', rest'⟩
    · -- last outstanding object: the span goes back to the heap
      have hr1 : Bcur.ref = 1 := by
        rw [href]
        rfl
      have hfree := hrem hr1
      refine ⟨{ sizeclass := ccur.sizeclass,
                nonempty := (if Bcur.freelist.isEmpty then p :: ccur.nonempty
                  else ccur.nonempty).erase p,
                empty := (if Bcur.freelist.isEmpty then ccur.empty.erase p
                  else ccur.empty).erase p,
                spans := [] ++ tail,
                nfree := ccur.nfree + 1 -
                  ((spanTotal g ccur.sizeclass Bcur : Nat) : Int) },
        { hcur with
            freed := { Bcur with freelist := [], ref := Bcur.ref - 1 } :: hcur.freed,
            sentinels := (Bcur.start <<< g.pageShift) :: hcur.sentinels },
        ?_, ?_, ?_⟩
      · rw [freeAll, hfree]
        rfl
      · show ([] ++ tail : List (Nat × MSpan)) = tail
        rfl
      · show ccur.nfree + 1 - ((spanTotal g ccur.sizeclass Bcur : Nat) : Int) = _
        rw [hsc]
        simp
    · -- more objects outstanding: live count stays positive
      have hr1ne : Bcur.ref ≠ 1 := by
        rw [href]
        simp
      have hfree := hnorem hr1ne
      obtain ⟨w', hsc', _⟩ := wf_free ⟨a, hcnt⟩ hfree
      obtain ⟨c2, h2, hrun, hsp2, hnf2⟩ := ih
        { Bcur with freelist := v :: Bcur.freelist, ref := Bcur.ref - 1 }
        _ _ w' (by rw [hsc']; exact hsc)
        rfl
        (by show Bcur.ref - 1 = _; rw [href]; simp)
        (by simp)
        (fun u hu => hcont u (by simp [hu]))
      refine ⟨c2, h2, ?_, hsp2, ?_⟩
      · rw [freeAll, hfree]
        exact hrun
      · have hT : spanTotal g sc
            { Bcur with freelist := v :: Bcur.freelist, ref := Bcur.ref - 1 } =
            spanTotal g sc Bcur := rfl
        have hnf2' : c2.nfree = (ccur.nfree + 1) + (((v' :: rest') : List Nat).length : Int) -
            ((spanTotal g sc Bcur : Nat) : Int) := hnf2
        rw [hnf2']
        simp only [List.length_cons]
        push_cast
        ring

theorem cntIn_all {g : Geometry} {s : MSpan} :
    ∀ out : List Nat, (∀ v ∈ out, spanContains g s v) →
      cntIn g s out = out.length := by
  intro out
  induction out with
  | nil => intro _; rfl
  | cons v vs ih =>
    intro hc
    rw [cntIn_cons, if_pos (hc v (by simp)), ih (fun u hu => hc u (by simp [hu]))]
    rfl

theorem cntIn_zero {g : Geometry} {s : MSpan} :
    ∀ out : List Nat, (∀ v ∈ out, ¬ spanContains g s v) →
      cntIn g s out = 0 := by
  intro out
  induction out with
  | nil => intro _; rfl
  | cons v vs ih =>
    intro hc
    rw [cntIn_cons, if_neg (hc v (by simp)), ih (fun u hu => hc u (by simp [hu]))]

/-- Spans aligned by the round-trip relation whose ranges hold none of the
outstanding objects have equal bookkeeping shapes. -/
theorem forall2_shape_zero {g : Geometry} {out : List Nat}
    {l m : List (Nat × MSpan)} (hf : List.Forall₂ (spanRel g out) l m)
    (hnc : ∀ q ∈ m, ∀ v ∈ out, ¬ spanContains g (Prod.snd q) v) :
    l.map spanShape = m.map spanShape := by
  induction hf with
  | nil => rfl
  | cons hR hrest ih =>
    rename_i p q tl tm
    obtain ⟨h1, h2, h3, h4, h5⟩ := hR
    have hz : cntIn g q.2 out = 0 := cntIn_zero out (hnc q (by simp))
    simp only [List.map_cons]
    rw [ih (fun q' hq' u hu => hnc q' (by simp [hq']) u hu)]
    rw [hz] at h4 h5
    congr 1
    rw [spanShape, spanShape, h1, h2, h3]
    have h4' : p.2.freelist.length = q.2.freelist.length := by omega
    have h5' : p.2.ref = q.2.ref := by omega
    rw [h4', h5']

/-- Claim C8 counterexample: a pool satisfying the full invariant that owns
one freshly grown span with live-object count 0 (`cZeroRef`).  AllocateBatch
takes the span's only object; freeing the chain back drives the span's live
count to zero, so `MCentral_Free` hands the span back to the page heap — the
round trip ends with no owned spans and counter 0, not the original one span
and counter 1.  The claim's unconditional restoration statement fails. -/
theorem claim_C8_counterexample :
    WF gTiny cZeroRef hEmpty ∧
    (MCentral_AllocList gTiny cZeroRef hEmpty 1).1 = [7] ∧
    MCentral_FreeList gTiny (MCentral_AllocList gTiny cZeroRef hEmpty 1).2.2.1
      (MCentral_AllocList gTiny cZeroRef hEmpty 1).2.2.2
      (MCentral_AllocList gTiny cZeroRef hEmpty 1).2.1
      (MCentral_AllocList gTiny cZeroRef hEmpty 1).1 =
      some (⟨0, [], [], [], 0⟩, ⟨[], [⟨7, 1, [], 0, 8⟩], [7]⟩) ∧
    ¬ ((⟨0, [], [], [], 0⟩ : MCentral).spans.map spanShape =
        cZeroRef.spans.map spanShape) ∧
    ¬ ((⟨0, [], [], [], 0⟩ : MCentral).nfree = cZeroRef.nfree) :=
  ⟨WF_of_WFb (by decide), by decide, by decide, by decide, by decide⟩

/-- Claim C8 (amended: every owned span has a positive live-object count
before the batch): allocating a batch with AllocateBatch and passing the
returned chain unchanged to FreeBatch succeeds and restores the
pre-allocation state up to free-list topology — the owned spans (keys,
start pages, page counts, free-object counts and live-object counts, in
order) and the pool's free-object counter equal their pre-allocation
values.  (Without the live-count precondition, freeing the batch back can
drive a span's live count to zero, which returns the span to the page heap
and subtracts its full object count from the counter.) -/
theorem claim_C8_amended {g : Geometry} {c : MCentral} {h : MHeap} (n : Nat)
    (w : WF g c h) (hpos : ∀ p ∈ c.spans, 0 < (Prod.snd p).ref) :
    ∃ c2 h2,
      MCentral_FreeList g (MCentral_AllocList g c h n).2.2.1
        (MCentral_AllocList g c h n).2.2.2
        (MCentral_AllocList g c h n).2.1
        (MCentral_AllocList g c h n).1 = some (c2, h2) ∧
      c2.spans.map spanShape = c.spans.map spanShape ∧
      c2.nfree = c.nfree := by
  obtain ⟨a, hcnt⟩ := w
  obtain ⟨wA, hscA⟩ := @wf_allocList g c h n ⟨a, hcnt⟩
  rcases allocList_run n a with ⟨hne, hsup, heq⟩ |
    ⟨c1, h1, v, c2, hcase, a1, hne1, hsc1, halloc, heq⟩
  · refine ⟨c, h, ?_, rfl, rfl⟩
    rw [heq]
    rfl
  rcases hcase with ⟨hgrow, hne0⟩ | ⟨hc1c, hh1h, hne0'⟩
  · -- the initial Grow ran: the whole chain comes from the grown span, whose
    -- live count returns to zero on the last free, so the span goes straight
    -- back to the heap and the original spans reappear unchanged
    rcases hsup : h.supply with _ | ⟨q0, qs⟩
    · rw [grow_fail hsup] at hgrow
      simp at hgrow
    have hpair0 := hgrow.symm.trans (@grow_spec g c h q0 qs hsup)
    injection hpair0 with hb hrest
    injection hrest with hc1 hh1
    have hne2 : c1.nonempty = q0 :: c.nonempty := by rw [hc1]
    have hnf1 : c1.nfree = c.nfree + ((MGetSizeClassInfo g c.sizeclass).2.2 : Int) := by
      rw [hc1]
    obtain ⟨B0, hsp1, hB0ref, hB0np⟩ :
        ∃ B0 : MSpan, c1.spans = (q0, B0) :: c.spans ∧ B0.ref = 0 ∧
          B0.npages = g.class_to_allocnpages c.sizeclass := by
      rw [hc1]
      exact ⟨_, rfl, rfl, rfl⟩
    obtain ⟨v', c', halloc', a', hd', hj', hnf'⟩ :=
      alloc_delta_step a1 a1 (delta_refl g c1) ⟨0, rfl⟩ hne2
    have hpair := halloc.symm.trans halloc'
    obtain ⟨hv, hc⟩ := Prod.ext_iff.mp hpair
    obtain rfl : v = v' := Option.some.inj hv
    obtain rfl : c2 = c' := hc
    obtain ⟨_, hdM, _, hnfM⟩ :=
      allocMany_delta a1 (n - 1) c2 ([] ++ [v]) a' hd' hj'
    obtain ⟨hforallM, houtM⟩ := hdM
    have hcontB0 : ∀ u ∈ ([] ++ [v]) ++ (allocMany c2 (n - 1)).1,
        spanContains g B0 u := by
      intro u hu
      obtain ⟨q, hq, hqc, hqne⟩ := houtM u hu
      rw [hne2, hne0] at hqne
      have hq1 : q.1 = q0 := by simpa using hqne
      rw [hsp1] at hq
      rcases List.mem_cons.mp hq with heq' | hq'
      · rw [heq'] at hqc
        exact hqc
      · have hknd := a1.keys_nodup
        rw [hsp1] at hknd
        simp only [List.map_cons, List.nodup_cons] at hknd
        have hmem0 : q0 ∈ c.spans.map Prod.fst := List.mem_map.mpr ⟨q, hq', hq1⟩
        exact absurd hmem0 hknd.1
    rw [hsp1] at hforallM
    rcases hfM : (allocMany c2 (n - 1)).2.spans with _ | ⟨⟨phid, phB⟩, ctail⟩
    · rw [hfM] at hforallM
      cases hforallM
    rw [hfM] at hforallM
    obtain ⟨hRhead, hftail⟩ := List.forall₂_cons.mp hforallM
    obtain ⟨hp1, hp2, hp3, hp4, hp5⟩ := hRhead
    have hp2' : phB.start = B0.start := hp2
    have hp3' : phB.npages = B0.npages := hp3
    have hp5' : phB.ref =
        B0.ref + cntIn g B0 (([] ++ [v]) ++ (allocMany c2 (n - 1)).1) := hp5
    have href : phB.ref = (v :: (allocMany c2 (n - 1)).1).length := by
      rw [hp5', hB0ref, cntIn_all _ hcontB0]
      simp only [List.nil_append, List.singleton_append, List.length_cons,
        Nat.zero_add]
    have hcontPh : ∀ u ∈ v :: (allocMany c2 (n - 1)).1, spanContains g phB u := by
      intro u hu
      exact (spanContains_congr hp2' hp3' u).mpr (hcontB0 u hu)
    have hncTail : ∀ q' ∈ c.spans, ∀ u ∈ ([] ++ [v]) ++ (allocMany c2 (n - 1)).1,
        ¬ spanContains g (Prod.snd q') u := by
      intro q' hq' u hu hcon
      have hdisj := a1.spans_disj
      rw [hsp1] at hdisj
      have hpd : pagesDisjoint (g.class_to_allocnpages c1.sizeclass)
          B0.start q'.2.start := (List.pairwise_cons.mp hdisj).1 q' hq'
      rw [hsc1] at hpd
      have hq'np : q'.2.npages = g.class_to_allocnpages c.sizeclass := by
        have hnp' := a1.span_np q' (by rw [hsp1]; simp [hq'])
        rw [hsc1] at hnp'
        exact hnp'
      exact disjoint_ranges hB0np hq'np hpd (hcontB0 u hu) hcon
    have hshape : ctail.map spanShape = c.spans.map spanShape :=
      forall2_shape_zero hftail hncTail
    have hstot : spanTotal g c.sizeclass phB = (MGetSizeClassInfo g c.sizeclass).2.2 := by
      unfold spanTotal
      rw [hp3', hB0np]
      rfl
    rw [heq] at wA hscA
    have wF : WF g
        { (allocMany c2 (n - 1)).2 with
          nfree := (allocMany c2 (n - 1)).2.nfree -
            ((v :: (allocMany c2 (n - 1)).1).length : Int) }
        h1 := wA
    obtain ⟨cR, hR, hrunF, hspF, hnfR⟩ :=
      freeAll_grow (v :: (allocMany c2 (n - 1)).1) phB _ h1 wF hscA hfM href
        (by simp) hcontPh
    refine ⟨cR, hR, ?_, ?_, ?_⟩
    · rw [heq]
      exact hrunF
    · rw [hspF]
      exact hshape
    · rw [hnfR]
      show (allocMany c2 (n - 1)).2.nfree -
          ((v :: (allocMany c2 (n - 1)).1).length : Int) +
          ((v :: (allocMany c2 (n - 1)).1).length : Int) -
          ((spanTotal g c.sizeclass phB : Nat) : Int) = c.nfree
      rw [hnfM, hnf', hnf1, hstot]
      ring
  · -- no Grow: every free goes back into a span that keeps a positive live
    -- count, so the free loop restores every span's bookkeeping in place
    obtain rfl : c = c1 := hc1c.symm
    obtain rfl : h = h1 := hh1h.symm
    rcases hne' : c.nonempty with _ | ⟨id0, rest0⟩
    · exact absurd hne' hne0'
    obtain ⟨v', c', halloc', a', hd', hj', hnf'⟩ :=
      alloc_delta_step a a (delta_refl g c) ⟨0, rfl⟩ hne'
    have hpair := halloc.symm.trans halloc'
    obtain ⟨hv, hc⟩ := Prod.ext_iff.mp hpair
    obtain rfl : v = v' := Option.some.inj hv
    obtain rfl : c2 = c' := hc
    obtain ⟨_, hdM, _, hnfM⟩ :=
      allocMany_delta a (n - 1) c2 ([] ++ [v]) a' hd' hj'
    rw [heq] at wA hscA
    have wF : WF g
        { (allocMany c2 (n - 1)).2 with
          nfree := (allocMany c2 (n - 1)).2.nfree -
            ((v :: (allocMany c2 (n - 1)).1).length : Int) }
        h := wA
    have hnfF : ((allocMany c2 (n - 1)).2.nfree -
          ((v :: (allocMany c2 (n - 1)).1).length : Int)) =
        c.nfree - ((v :: (allocMany c2 (n - 1)).1).length : Int) := by
      rw [hnfM, hnf']
    obtain ⟨cR, hrun, hdR, hnfR⟩ :=
      freeAll_delta a hpos (v :: (allocMany c2 (n - 1)).1) _ wF hdM hnfF
    refine ⟨cR, h, ?_, delta_nil_shape hdR, hnfR⟩
    rw [heq]
    exact hrun

theorem claim_C8_witness :
    (∀ p ∈ cHalf.spans, 0 < (Prod.snd p).ref) ∧
    ∃ c2 h2,
      MCentral_FreeList gTiny2 (MCentral_AllocList gTiny2 cHalf hEmpty 1).2.2.1
        (MCentral_AllocList gTiny2 cHalf hEmpty 1).2.2.2
        (MCentral_AllocList gTiny2 cHalf hEmpty 1).2.1
        (MCentral_AllocList gTiny2 cHalf hEmpty 1).1 = some (c2, h2) ∧
      c2.spans.map spanShape = cHalf.spans.map spanShape ∧
      c2.nfree = cHalf.nfree :=
  ⟨by decide, claim_C8_amended 1 (WF_of_WFb (by decide)) (by decide)⟩

end CentralFreeList
